import Mathlib

/-!
Verification development for the PTM_Visualizer repository.

The definitions below are a shallow embedding of the program's core logic:
* the PTM-site consolidation fold of `client/src/components/PTMSitesTable.tsx`
  (`consolidatedSites`, lines 62-128),
* the sequence-window extractor `getSequenceWindow` (lines 144-154),
* the lollipop-plot consolidation fold of
  `client/src/components/PTMLollipopPlot.tsx` (lines 176-210),
* the upload pipeline of `server/routes.ts`
  (`POST /api/sessions/:sessionId/upload`, lines 72-194).

JavaScript numbers are modelled by `JSNum`: a finite value (as a rational),
`NaN`, `Infinity` or `-Infinity`; float rounding is abstracted to exact
rational arithmetic.  JavaScript `undefined`/`null` for optional fields are
modelled by `Option`.  The JavaScript `Map` (insertion-ordered, keyed by
strings) is modelled by an association list.
-/

/-- A JavaScript number: finite (abstracted to an exact rational), `NaN`,
`Infinity` or `-Infinity`. -/
inductive JSNum where
  | fin (q : ℚ)
  | nan
  | inf
  | ninf
deriving DecidableEq, Repr

namespace JSNum

/-- JavaScript truthiness of a number: `0` and `NaN` are falsy, everything
else (including the infinities) is truthy. -/
def truthy : JSNum → Bool
  | fin q => q ≠ 0
  | nan => false
  | inf => true
  | ninf => true

/-- JavaScript `Number.isFinite` / global `isFinite` on a number. -/
def isFin : JSNum → Bool
  | fin _ => true
  | _ => false

/-- JavaScript `+` on numbers (`NaN` propagates, `Infinity + -Infinity = NaN`). -/
def add : JSNum → JSNum → JSNum
  | nan, _ => nan
  | _, nan => nan
  | inf, ninf => nan
  | ninf, inf => nan
  | inf, _ => inf
  | _, inf => inf
  | ninf, _ => ninf
  | _, ninf => ninf
  | fin a, fin b => fin (a + b)

/-- JavaScript `Math.max` on two numbers (`NaN` if either argument is `NaN`). -/
def jmax : JSNum → JSNum → JSNum
  | nan, _ => nan
  | _, nan => nan
  | inf, _ => inf
  | _, inf => inf
  | ninf, b => b
  | a, ninf => a
  | fin a, fin b => fin (max a b)

/-- Division of a JavaScript number by a positive integer count (the only
division the consolidation code performs). -/
def divNat (x : JSNum) (n : Nat) : JSNum :=
  match x with
  | fin a => fin (a / (n : ℚ))
  | nan => nan
  | inf => inf
  | ninf => ninf

/-- The order on non-`NaN` JavaScript numbers; comparisons involving `NaN`
are false, as in JavaScript. -/
def jle : JSNum → JSNum → Bool
  | nan, _ => false
  | _, nan => false
  | ninf, _ => true
  | _, inf => true
  | inf, _ => false
  | _, ninf => false
  | fin a, fin b => a ≤ b

end JSNum

/-- Truthiness of an optional JavaScript number (`undefined` is falsy). -/
def truthyOpt : Option JSNum → Bool
  | none => false
  | some v => v.truthy

/-- The evidence class of a PTM site: the TypeScript union
`'experimental' | 'known'` (`type` field of the `PTMSite` interface). -/
inductive EvType where
  | experimental
  | known
deriving DecidableEq, Repr

/-- String interpolation of an `EvType` value, as in the template literal
computing the consolidation key. -/
def evTypeStr : EvType → String
  | .experimental => "experimental"
  | .known => "known"

/-- The `PTMSite` interface of `PTMSitesTable.tsx` (lines 14-28): one raw
per-peptide observation as received by the component.  Optional (`?`)
TypeScript fields are modelled by `Option`. -/
structure PTMSite where
  siteLocation : Nat
  modificationType : String
  type : EvType
  siteAA : Option String := none
  siteProbability : Option JSNum := none
  quantity : Option JSNum := none
  condition : Option String := none
  flankingRegion : Option String := none
  pubmedIds : Option (List String) := none
  ambiguous : Option Bool := none
  ambiguityGroupId : Option String := none
  candidateUniprotIds : Option (List String) := none
deriving DecidableEq, Repr

/-- One per-condition entry of a consolidated site
(`conditionQuantities` array element, `PTMSitesTable.tsx` lines 32-38). -/
structure CondQuant where
  condition : String
  quantitySum : JSNum
  quantityCount : Nat
  quantity : Option JSNum
  peptideCount : Nat
deriving DecidableEq, Repr

/-- The `ConsolidatedPTMSite` interface (`PTMSitesTable.tsx` lines 30-42);
it extends `PTMSite` (the `...site` spread copies all raw fields).
`candidateProteins` is a JavaScript `Set`, modelled as an insertion-ordered
duplicate-free list. -/
structure ConsolidatedPTMSite extends PTMSite where
  peptideCount : Nat
  conditionQuantities : List CondQuant
  isAmbiguous : Bool
  candidateProteins : List String
deriving DecidableEq, Repr

/-- `site.condition || 'Unknown'`: JavaScript `||` on an optional string,
where the empty string is falsy. -/
def condLabel : Option String → String
  | none => "Unknown"
  | some s => if s = "" then "Unknown" else s

/-- The consolidation key of `PTMSitesTable.tsx` line 65:
the template literal `` `${site.siteLocation}_${site.modificationType}_${site.type}` ``. -/
def siteKey (s : PTMSite) : String :=
  Nat.repr s.siteLocation ++ "_" ++ s.modificationType ++ "_" ++ evTypeStr s.type

/-- The (siteLocation, modificationType, evidenceClass) triple that the spec
calls the ConsolidationKey. -/
def consolidationKeyTriple (s : PTMSite) : Nat × String × EvType :=
  (s.siteLocation, s.modificationType, s.type)

/-- `Map.get` on the association-list model of a JavaScript `Map`. -/
def mapGet {β : Type} (m : List (String × β)) (k : String) : Option β :=
  (m.find? fun p => p.1 == k).map Prod.snd

/-- `Map.set` on the association-list model: replace in place when the key is
present (JavaScript `Map` keeps the original insertion position), append
otherwise. -/
def mapSet {β : Type} (m : List (String × β)) (k : String) (v : β) :
    List (String × β) :=
  if m.any (fun p => p.1 == k) then
    m.map (fun p => if p.1 == k then (k, v) else p)
  else
    m ++ [(k, v)]

/-- `Array.prototype.find` followed by in-place mutation of the found element:
apply `f` to the first element satisfying `p`. -/
def updateFirst {α : Type} (p : α → Bool) (f : α → α) : List α → List α
  | [] => []
  | x :: xs => if p x then f x :: xs else x :: updateFirst p f xs

/-- `Set.prototype.add`: append if not already present. -/
def setAdd (l : List String) (x : String) : List String :=
  if x ∈ l then l else l ++ [x]

/-- `ids.forEach(id => set.add(id))`. -/
def setAddAll (l : List String) (xs : List String) : List String :=
  xs.foldl setAdd l

/-- JavaScript `String.prototype.trim`: strip whitespace from both ends
(modelled structurally over the character list). -/
def jsTrim (s : String) : String :=
  String.mk (((s.data.dropWhile Char.isWhitespace).reverse.dropWhile
    Char.isWhitespace).reverse)

/-- The merge of `siteProbability` values (`PTMSitesTable.tsx` lines 71-73):
`existing && incoming ? Math.max(existing, incoming) : existing || incoming`,
with JavaScript truthiness (so `0` and `NaN` behave like `undefined`). -/
def probMerge : Option JSNum → Option JSNum → Option JSNum
  | none, b => b
  | some a, none => if a.truthy then some a else none
  | some a, some b =>
    if a.truthy && b.truthy then some (a.jmax b)
    else if a.truthy then some a else some b

/-- A freshly pushed per-condition entry (`PTMSitesTable.tsx` lines 96-103 and
119-125): `quantitySum: quantity ?? 0, quantityCount: quantity !== null ? 1 : 0,
quantity, peptideCount: 1`. -/
def newCond (ck : String) (q : Option JSNum) : CondQuant :=
  { condition := ck
    quantitySum := q.getD (JSNum.fin 0)
    quantityCount := if q.isSome then 1 else 0
    quantity := q
    peptideCount := 1 }

/-- The in-place update of a found per-condition entry
(`PTMSitesTable.tsx` lines 88-94): increment `peptideCount`, and if the
observation's quantity is present, accumulate `quantitySum`/`quantityCount`
and recompute the running average. -/
def bumpCond (q : Option JSNum) (cq : CondQuant) : CondQuant :=
  let cq1 := { cq with peptideCount := cq.peptideCount + 1 }
  match q with
  | some v =>
    { cq1 with
        quantitySum := cq1.quantitySum.add v
        quantityCount := cq1.quantityCount + 1
        quantity := some ((cq1.quantitySum.add v).divNat (cq1.quantityCount + 1)) }
  | none => cq1

/-- Lines 84-104: look up or create the per-condition entry for the
observation's condition label. -/
def updateCondQuantities (cqs : List CondQuant) (ck : String) (q : Option JSNum) :
    List CondQuant :=
  match cqs.find? (fun cq => cq.condition == ck) with
  | some _ => updateFirst (fun cq => cq.condition == ck) (bumpCond q) cqs
  | none => cqs ++ [newCond ck q]

/-- The `existing` branch of the consolidation fold
(`PTMSitesTable.tsx` lines 68-104). -/
def updateSite (e : ConsolidatedPTMSite) (s : PTMSite) : ConsolidatedPTMSite :=
  let e1 := { e with
      peptideCount := e.peptideCount + 1
      siteProbability := probMerge e.siteProbability s.siteProbability }
  let e2 :=
    if s.ambiguous = some true then
      { e1 with
          isAmbiguous := true
          candidateProteins :=
            match s.candidateUniprotIds with
            | some ids => setAddAll e1.candidateProteins ids
            | none => e1.candidateProteins }
    else e1
  { e2 with
      conditionQuantities :=
        updateCondQuantities e2.conditionQuantities (condLabel s.condition) s.quantity }

/-- The key-unseen branch of the consolidation fold
(`PTMSitesTable.tsx` lines 105-126): spread the raw observation and attach
the initial aggregate fields. -/
def initSite (s : PTMSite) : ConsolidatedPTMSite :=
  { toPTMSite := s
    peptideCount := 1
    isAmbiguous := s.ambiguous = some true
    candidateProteins :=
      if s.ambiguous = some true then
        match s.candidateUniprotIds with
        | some ids => setAddAll [] ids
        | none => []
      else []
    conditionQuantities := [newCond (condLabel s.condition) s.quantity] }

/-- One step of `ptmSites.forEach(site => ...)` (`PTMSitesTable.tsx`
lines 64-128). -/
def consolidateStep (m : List (String × ConsolidatedPTMSite)) (s : PTMSite) :
    List (String × ConsolidatedPTMSite) :=
  match mapGet m (siteKey s) with
  | some e => mapSet m (siteKey s) (updateSite e s)
  | none => mapSet m (siteKey s) (initSite s)

/-- The `consolidatedSites` map of `PTMSitesTable.tsx` (lines 62-128), as a
left fold over the incoming observations. -/
def consolidatedSites (sites : List PTMSite) : List (String × ConsolidatedPTMSite) :=
  sites.foldl consolidateStep []

/-- The observations of `sites` that contribute to the consolidated entry
stored under key `k`. -/
def contributors (sites : List PTMSite) (k : String) : List PTMSite :=
  sites.filter fun s => siteKey s == k

/-! ### Sequence window extractor (`PTMSitesTable.tsx` lines 144-154) -/

/-- JavaScript `String.prototype.slice` on the character list of a string:
negative indices count from the end, indices are clamped to `[0, length]`,
and an empty result is produced when `start ≥ end`. -/
def jsSliceList (l : List Char) (start stop : Int) : List Char :=
  let n : Int := l.length
  let st := if start < 0 then max (n + start) 0 else min start n
  let en := if stop < 0 then max (n + stop) 0 else min stop n
  (l.take en.toNat).drop st.toNat

/-- JavaScript `String.prototype.slice` on strings. -/
def jsSlice (s : String) (start stop : Int) : String :=
  String.mk (jsSliceList s.data start stop)

/-- JavaScript string indexing `s[i]`: `undefined` (here `none`) outside
`[0, length)`. -/
def jsCharAt (s : String) (i : Int) : Option Char :=
  if i < 0 then none else s.data.get? i.toNat

/-- Template-literal interpolation of a possibly-`undefined` character:
JavaScript renders `undefined` as the string `"undefined"`. -/
def charInterp : Option Char → String
  | some c => String.mk [c]
  | none => "undefined"

/-- `getSequenceWindow` (`PTMSitesTable.tsx` lines 144-154): `windowSize` is
the component's window-radius state, `position` the 1-based site position,
`sequence` the optional protein sequence (absent or empty gives `'N/A'`,
since `!sequence` is true for the empty string). -/
def getSequenceWindow (windowSize : Nat) (position : Int) (sequence : Option String) :
    String :=
  match sequence with
  | none => "N/A"
  | some s =>
    if s = "" then "N/A"
    else
      let startPos : Int := max 0 (position - 1 - windowSize)
      let endPos : Int := min (s.length : Int) (position + windowSize)
      let beforeSite := jsSlice s startPos (position - 1)
      let siteAA := jsCharAt s (position - 1)
      let afterSite := jsSlice s position endPos
      beforeSite ++ "[" ++ charInterp siteAA ++ "]" ++ afterSite

/-! ### Lollipop-plot consolidation (`PTMLollipopPlot.tsx` lines 176-210) -/

/-- The consolidated entry of the lollipop plot:
`PTMSite & { totalConditions: number, conditions: string[] }`, plus the
`peptideCount` the fold writes into the spread copy. -/
structure LollipopSite extends PTMSite where
  peptideCountAgg : Nat
  totalConditions : Nat
  conditions : List String
deriving DecidableEq, Repr

/-- `site.condition && site.condition.trim() !== '' && site.quantity != null
&& isFinite(site.quantity)` (`PTMLollipopPlot.tsx` lines 193 and 200):
the guard for counting a condition as quantitative evidence. -/
def hasQuantEvidence (s : PTMSite) : Bool :=
  match s.condition, s.quantity with
  | some c, some q => c ≠ "" && jsTrim c ≠ "" && q.isFin
  | _, _ => false

/-- The quantity merge of the lollipop fold (lines 186-188):
`existing.quantity && site.quantity ? (existing.quantity + site.quantity) / 2
: existing.quantity || site.quantity`. -/
def quantMergeAvg : Option JSNum → Option JSNum → Option JSNum
  | none, b => b
  | some a, none => if a.truthy then some a else none
  | some a, some b =>
    if a.truthy && b.truthy then some ((a.add b).divNat 2)
    else if a.truthy then some a else some b

/-- The `existing` branch of the lollipop consolidation fold (lines 182-201). -/
def lollipopUpdate (e : LollipopSite) (s : PTMSite) : LollipopSite :=
  let e1 := { e with
      peptideCountAgg := e.peptideCountAgg + 1
      quantity := quantMergeAvg e.quantity s.quantity
      siteProbability := probMerge e.siteProbability s.siteProbability }
  if hasQuantEvidence s then
    let conds :=
      match s.condition with
      | some c => if c ∈ e1.conditions then e1.conditions else e1.conditions ++ [c]
      | none => e1.conditions
    { e1 with conditions := conds, totalConditions := conds.length }
  else e1

/-- The key-unseen branch of the lollipop fold (lines 202-209). -/
def lollipopInit (s : PTMSite) : LollipopSite :=
  let initialConditions :=
    if hasQuantEvidence s then
      match s.condition with
      | some c => [c]
      | none => []
    else []
  { toPTMSite := s
    peptideCountAgg := 1
    totalConditions := initialConditions.length
    conditions := initialConditions }

/-- One step of the lollipop `ptmSites.forEach` (lines 178-210). -/
def lollipopStep (m : List (String × LollipopSite)) (s : PTMSite) :
    List (String × LollipopSite) :=
  match mapGet m (siteKey s) with
  | some e => mapSet m (siteKey s) (lollipopUpdate e s)
  | none => mapSet m (siteKey s) (lollipopInit s)

/-- The `consolidatedSites` map of `PTMLollipopPlot.tsx` (lines 176-210). -/
def lollipopConsolidatedSites (sites : List PTMSite) :
    List (String × LollipopSite) :=
  sites.foldl lollipopStep []

/-! ### Upload pipeline (`server/routes.ts` lines 72-194)

The storage backend is IO; the model below is the pure data flow of the
route handler: which rows are accepted, which errors are recorded, which
records are created and which session fields are written. -/

/-- JavaScript `parseInt` restricted to base 10 as used on TSV cells:
skip surrounding whitespace, optional sign, then the longest digit prefix;
`NaN` (here `none`) when no digit is found. -/
def parseIntJS (s : String) : Option Int :=
  let t := jsTrim s
  let core : Int × List Char :=
    match t.data with
    | '-' :: rest => (-1, rest)
    | '+' :: rest => (1, rest)
    | l => (1, l)
  let digs := core.2.takeWhile Char.isDigit
  if digs.isEmpty then none
  else some (core.1 * (digs.foldl (fun acc c => 10 * acc + ((c.toNat : Int) - 48)) 0))

/-- JavaScript `parseFloat` as used on TSV cells, abstracted to the grammar
the pipeline relies on: optional sign, then either `Infinity` or a decimal
literal `digits[.digits]`; `NaN` (here `none`) otherwise. -/
def parseFloatJS (s : String) : Option JSNum :=
  let t := jsTrim s
  let core : Bool × List Char :=
    match t.data with
    | '-' :: rest => (true, rest)
    | '+' :: rest => (false, rest)
    | l => (false, l)
  if core.2.take 8 = "Infinity".data then
    some (if core.1 then JSNum.ninf else JSNum.inf)
  else
    let intPart := core.2.takeWhile Char.isDigit
    if intPart.isEmpty then none
    else
      let rest := core.2.drop intPart.length
      let fracPart :=
        match rest with
        | '.' :: r => r.takeWhile Char.isDigit
        | _ => []
      let ip : ℚ := intPart.foldl (fun acc c => 10 * acc + ((c.toNat : ℚ) - 48)) 0
      let fp : ℚ := fracPart.foldl (fun acc c => 10 * acc + ((c.toNat : ℚ) - 48)) 0
      let v : ℚ := ip + fp / (10 : ℚ) ^ fracPart.length
      some (JSNum.fin (if core.1 then -v else v))

/-- One parsed TSV data row, as the `header: true` parse delivers it: every
header column is present as a string cell, the empty string standing for a
blank (or absent) value.  Only the cells the route handler reads are kept;
the `PG.*` metadata cells only feed pass-through protein-record fields and
cannot affect validation or counts. -/
structure RawRow where
  proteinId : String := ""
  siteLocationStr : String := ""
  siteAAStr : String := ""
  modificationTitle : String := ""
  siteProbabilityStr : String := ""
  quantityStr : String := ""
  multiplicityStr : String := ""
  fileName : String := ""
  conditionStr : String := ""
deriving DecidableEq, Repr

/-- A stored PTM-site record, built from a row by `routes.ts` lines 134-146. -/
structure StoredPtmSite where
  uniprotId : String
  siteLocation : Int
  siteAA : String
  modificationType : String
  siteProbability : JSNum
  quantity : Option JSNum
  multiplicity : Int
  experimentName : Option String
  condition : Option String
deriving DecidableEq, Repr

/-- `s.trim() || null` on an optional-looking cell. -/
def trimOrNone (s : String) : Option String :=
  if jsTrim s = "" then none else some (jsTrim s)

/-- Build and validate the PTM-site record of a row (`routes.ts` lines
134-148).  `insertPtmSiteSchema.parse` (drizzle-zod over the `ptm_sites`
table) throws exactly when a number-typed field is `NaN`: `siteLocation`
from `parseInt`, `quantity` from `parseFloat` (when the cell is non-empty),
`multiplicity` from `parseInt` (when the cell is non-empty);
`siteProbability` is coerced by `|| 0` and can never be `NaN`. -/
def buildPtmSite (uniprotId : String) (r : RawRow) : Option StoredPtmSite :=
  let loc := parseIntJS r.siteLocationStr
  let quant : Option (Option JSNum) :=
    if r.quantityStr ≠ "" then
      match parseFloatJS r.quantityStr with
      | some v => some (some v)
      | none => none
    else some none
  let mult : Option Int :=
    if r.multiplicityStr ≠ "" then parseIntJS r.multiplicityStr else some 1
  match loc, quant, mult with
  | some l, some q, some m =>
    some
      { uniprotId := uniprotId
        siteLocation := l
        siteAA := jsTrim r.siteAAStr
        modificationType := jsTrim r.modificationTitle
        siteProbability :=
          match parseFloatJS r.siteProbabilityStr with
          | some v => if v.truthy then v else JSNum.fin 0
          | none => JSNum.fin 0
        quantity := q
        multiplicity := m
        experimentName := trimOrNone r.fileName
        condition := trimOrNone r.conditionStr }
  | _, _, _ => none

/-- The accumulating state of the row-processing loop (`routes.ts`
lines 117-174). -/
structure UploadState where
  proteinIds : List String := []
  processedSites : Nat := 0
  validationErrors : List (Nat × String) := []
  storedSites : List StoredPtmSite := []
  storedProteins : List String := []
deriving DecidableEq, Repr

/-- One iteration of the row loop (`routes.ts` lines 122-174): reject rows
with a blank `PTM.ProteinId`; otherwise record the accession, validate and
store the PTM site (schema failures are caught and recorded as per-row
errors), and create a protein record on first sight of the accession. -/
def processRow (st : UploadState) (idx : Nat) (r : RawRow) : UploadState :=
  let uniprotId := jsTrim r.proteinId
  if uniprotId = "" then
    { st with validationErrors := st.validationErrors ++ [(idx + 1, "Missing PTM.ProteinId")] }
  else
    let st1 := { st with proteinIds := setAdd st.proteinIds uniprotId }
    match buildPtmSite uniprotId r with
    | some rec =>
      let st2 := { st1 with
          storedSites := st1.storedSites ++ [rec]
          processedSites := st1.processedSites + 1 }
      if uniprotId ∈ st2.storedProteins then st2
      else { st2 with storedProteins := st2.storedProteins ++ [uniprotId] }
    | none =>
      { st1 with validationErrors := st1.validationErrors ++ [(idx + 1, "schema validation failed")] }

/-- The required header set (`routes.ts` line 98). -/
def requiredColumns : List String :=
  ["PTM.ProteinId", "PTM.SiteLocation", "PTM.SiteAA", "PTM.ModificationTitle"]

/-- `requiredColumns.filter(col => !headers.includes(col))` (line 100). -/
def missingRequired (headers : List String) : List String :=
  requiredColumns.filter fun c => ¬ headers.contains c

/-- The observable outcome of one upload request. -/
structure UploadResult where
  status : String
  missingColumns : List String
  processedSites : Nat
  validationErrors : List (Nat × String)
  storedSites : List StoredPtmSite
  storedProteins : List String
  totalProteins : Nat
  totalPtmSites : Nat
deriving DecidableEq, Repr

/-- The upload route body (`routes.ts` lines 90-187) after a successful
parse: the required-column check short-circuits with a failed session and
no writes; otherwise every row is processed in order and the session
statistics and `completed` status are written at the end. -/
def processUpload (headers : List String) (rows : List RawRow) : UploadResult :=
  let missing := missingRequired headers
  if missing ≠ [] then
    { status := "failed"
      missingColumns := missing
      processedSites := 0
      validationErrors := []
      storedSites := []
      storedProteins := []
      totalProteins := 0
      totalPtmSites := 0 }
  else
    let final := rows.enum.foldl (fun st p => processRow st p.1 p.2) {}
    { status := "completed"
      missingColumns := []
      processedSites := final.processedSites
      validationErrors := final.validationErrors
      storedSites := final.storedSites
      storedProteins := final.storedProteins
      totalProteins := final.proteinIds.length
      totalPtmSites := final.processedSites }

/-- A row is accepted (validated and stored) iff its accession is non-blank
and the schema validation succeeds. -/
def rowAccepted (r : RawRow) : Bool :=
  jsTrim r.proteinId ≠ "" && (buildPtmSite (jsTrim r.proteinId) r).isSome

/-- The accessions "seen" by the loop: the non-blank trimmed `PTM.ProteinId`
cells, in row order (added to the `proteinIds` set before validation). -/
def seenAccessions (rows : List RawRow) : List String :=
  rows.filterMap fun r =>
    if jsTrim r.proteinId = "" then none else some (jsTrim r.proteinId)

/-! ### Association-list map lemmas -/

/-- Both consolidation folds have the shape "look up the key, then store an
updated or fresh entry": one step, abstracted over the entry update. -/
def keyedStep {β : Type} (upd : Option β → PTMSite → β)
    (m : List (String × β)) (s : PTMSite) : List (String × β) :=
  mapSet m (siteKey s) (upd (mapGet m (siteKey s)) s)

/-- The entry transformer of the sites-table fold. -/
def entryUpd (acc : Option ConsolidatedPTMSite) (s : PTMSite) : ConsolidatedPTMSite :=
  match acc with
  | some e => updateSite e s
  | none => initSite s

/-- The entry transformer of the lollipop fold. -/
def lollipopEntryUpd (acc : Option LollipopSite) (s : PTMSite) : LollipopSite :=
  match acc with
  | some e => lollipopUpdate e s
  | none => lollipopInit s

/-- The most-significant-digit-first decoding of a decimal character list,
used to show `Nat.repr` is injective. -/
def decodeDigits (l : List Char) : Nat :=
  l.foldl (fun acc c => 10 * acc + (c.toNat - 48)) 0

/-- The key as a function of the (siteLocation, modificationType, evidence
class) triple. -/
def keyEnc (t : Nat × String × EvType) : String :=
  Nat.repr t.1 ++ "_" ++ t.2.1 ++ "_" ++ evTypeStr t.2.2

/-- Sum of the `peptideCount` fields of a per-condition list. -/
def sumPC (l : List CondQuant) : Nat := (l.map CondQuant.peptideCount).sum

/-- The per-condition well-formedness invariant: the reported average is
absent exactly while no quantity was accumulated, and otherwise equals
`quantitySum / quantityCount`. -/
def condAvgOk (cq : CondQuant) : Prop :=
  (cq.quantityCount = 0 → cq.quantity = none)
  ∧ (0 < cq.quantityCount → cq.quantity = some (cq.quantitySum.divNat cq.quantityCount))

/-- The truthy probabilities of a list of optional probabilities, in order:
the values JavaScript's `&&`/`||` idiom actually lets through (present,
non-zero, non-`NaN`). -/
def truthyVals (ps : List (Option JSNum)) : List JSNum :=
  ps.filterMap fun p =>
    match p with
    | some v => if v.truthy then some v else none
    | none => none

/-- The amended condition-tally property of a lollipop entry, relative to
the full input list. -/
def lolliCondOk (pool : List PTMSite) (e : LollipopSite) : Prop :=
  ∀ c ∈ e.conditions, jsTrim c ≠ "" ∧
    ∃ s ∈ pool, s.condition = some c ∧ ∃ q, s.quantity = some (JSNum.fin q)

/-- Witness headers for the upload scenarios: the four required columns plus
optional ones. -/
def scenarioHeaders : List String :=
  ["PTM.ProteinId", "PTM.SiteLocation", "PTM.SiteAA", "PTM.ModificationTitle",
   "PTM.SiteProbability", "PTM.Quantity", "R.Condition"]

/-- A structurally valid row of the witness upload. -/
def scenarioRow (i : Nat) : RawRow :=
  { proteinId := "P" ++ Nat.repr i
    siteLocationStr := Nat.repr (i + 1)
    siteAAStr := "S"
    modificationTitle := "Phospho (STY)" }

/-- Scenario B's rows: ten rows, the fourth one missing its
`PTM.SiteLocation` value. -/
def scenarioRows : List RawRow :=
  (List.range 10).map fun i =>
    if i = 3 then { scenarioRow i with siteLocationStr := "" } else scenarioRow i

theorem mapGet_nil {β : Type} (k : String) : mapGet ([] : List (String × β)) k = none := rfl

theorem mapGet_cons {β : Type} (p : String × β) (rest : List (String × β)) (k : String) :
    mapGet (p :: rest) k = if p.1 = k then some p.2 else mapGet rest k := by
  by_cases h : p.1 = k
  · simp [mapGet, List.find?_cons_of_pos, h]
  · simp [mapGet, List.find?_cons_of_neg, h]

theorem mapGet_eq_none {β : Type} (m : List (String × β)) (k : String) :
    mapGet m k = none ↔ k ∉ m.map Prod.fst := by
  induction m with
  | nil => simp [mapGet]
  | cons p rest ih =>
    rw [mapGet_cons]
    by_cases h : p.1 = k
    · simp [h]
    · simp only [h, if_false, List.map_cons, List.mem_cons, ih]
      constructor
      · rintro hk (rfl | hmem)
        · exact h rfl
        · exact hk hmem
      · intro hk hmem
        exact hk (Or.inr hmem)

theorem mapGet_subst_self {β : Type} (m : List (String × β)) (k : String) (v : β)
    (hmem : k ∈ m.map Prod.fst) :
    mapGet (m.map (fun p => if p.1 == k then (k, v) else p)) k = some v := by
  induction m with
  | nil => simp at hmem
  | cons p rest ih =>
    by_cases h : p.1 = k
    · have hrw : (if (p.1 == k) = true then (k, v) else p) = (k, v) := by
        rw [if_pos (by simp [beq_iff_eq, h])]
      rw [List.map_cons, hrw, mapGet_cons, if_pos rfl]
    · have hmem' : k ∈ rest.map Prod.fst := by
        rcases List.mem_map.mp hmem with ⟨q, hq, hk⟩
        rcases List.mem_cons.mp hq with rfl | hq'
        · exact absurd hk h
        · exact List.mem_map.mpr ⟨q, hq', hk⟩
      have hrw : (if (p.1 == k) = true then (k, v) else p) = p := by
        rw [if_neg (by simp [beq_iff_eq, h])]
      rw [List.map_cons, hrw, mapGet_cons, if_neg h]
      exact ih hmem'

theorem mapGet_subst_ne {β : Type} (m : List (String × β)) (k k' : String) (v : β)
    (h : k' ≠ k) :
    mapGet (m.map (fun p => if p.1 == k then (k, v) else p)) k' = mapGet m k' := by
  induction m with
  | nil => rfl
  | cons p rest ih =>
    by_cases hp : p.1 = k
    · have hrw : (if (p.1 == k) = true then (k, v) else p) = (k, v) := by
        rw [if_pos (by simp [beq_iff_eq, hp])]
      rw [List.map_cons, hrw, mapGet_cons, mapGet_cons,
        if_neg (fun hh => h hh.symm), if_neg (by rw [hp]; exact fun hh => h hh.symm)]
      exact ih
    · have hrw : (if (p.1 == k) = true then (k, v) else p) = p := by
        rw [if_neg (by simp [beq_iff_eq, hp])]
      rw [List.map_cons, hrw, mapGet_cons, mapGet_cons]
      by_cases hq : p.1 = k'
      · rw [if_pos hq, if_pos hq]
      · rw [if_neg hq, if_neg hq]
        exact ih

theorem any_key_iff {β : Type} (m : List (String × β)) (k : String) :
    m.any (fun p => p.1 == k) = true ↔ k ∈ m.map Prod.fst := by
  simp only [List.any_eq_true, beq_iff_eq, List.mem_map]

theorem mapGet_set_self {β : Type} (m : List (String × β)) (k : String) (v : β) :
    mapGet (mapSet m k v) k = some v := by
  by_cases hmem : k ∈ m.map Prod.fst
  · rw [mapSet, if_pos ((any_key_iff m k).mpr hmem)]
    exact mapGet_subst_self m k v hmem
  · rw [mapSet, if_neg (show ¬ m.any (fun p => p.1 == k) = true by rw [any_key_iff]; exact hmem)]
    rw [mapGet, List.find?_append]
    have h1 : m.find? (fun p => p.1 == k) = none := by
      have := (mapGet_eq_none m k).mpr hmem
      rw [mapGet] at this
      exact Option.map_eq_none'.mp this
    rw [h1]
    simp [List.find?]

theorem mapGet_set_ne {β : Type} (m : List (String × β)) (k k' : String) (v : β)
    (h : k' ≠ k) : mapGet (mapSet m k v) k' = mapGet m k' := by
  by_cases hmem : k ∈ m.map Prod.fst
  · rw [mapSet, if_pos ((any_key_iff m k).mpr hmem)]
    exact mapGet_subst_ne m k k' v h
  · rw [mapSet, if_neg (show ¬ m.any (fun p => p.1 == k) = true by rw [any_key_iff]; exact hmem)]
    rw [mapGet, List.find?_append]
    have hne : (((k, v) : String × β).1 == k') = false := by
      simp only [beq_eq_false_iff_ne, ne_eq]
      exact fun hh => h hh.symm
    have h2 : List.find? (fun p => p.1 == k') [(k, v)] = none := by
      rw [List.find?_cons, hne]
      rfl
    cases hf : m.find? (fun p => p.1 == k') with
    | none => rw [h2, mapGet, hf]; rfl
    | some p => rw [mapGet, hf]; rfl

theorem mapKeys_set {β : Type} (m : List (String × β)) (k : String) (v : β) :
    (mapSet m k v).map Prod.fst =
      if k ∈ m.map Prod.fst then m.map Prod.fst else m.map Prod.fst ++ [k] := by
  by_cases hmem : k ∈ m.map Prod.fst
  · rw [mapSet, if_pos ((any_key_iff m k).mpr hmem), if_pos hmem, List.map_map]
    apply List.map_congr_left
    intro p _
    by_cases hp : p.1 = k
    · simp [Function.comp, hp]
    · simp [Function.comp, hp]
  · rw [mapSet, if_neg (show ¬ m.any (fun p => p.1 == k) = true by rw [any_key_iff]; exact hmem), if_neg hmem]
    simp

/-! ### Per-key characterization of the consolidation folds -/

theorem consolidateStep_eq (m : List (String × ConsolidatedPTMSite)) (s : PTMSite) :
    consolidateStep m s = keyedStep entryUpd m s := by
  cases h : mapGet m (siteKey s) <;> simp [consolidateStep, keyedStep, entryUpd, h]

theorem lollipopStep_eq (m : List (String × LollipopSite)) (s : PTMSite) :
    lollipopStep m s = keyedStep lollipopEntryUpd m s := by
  cases h : mapGet m (siteKey s) <;> simp [lollipopStep, keyedStep, lollipopEntryUpd, h]

theorem keyedStep_get {β : Type} (upd : Option β → PTMSite → β)
    (m : List (String × β)) (s : PTMSite) (k : String) :
    mapGet (keyedStep upd m s) k =
      if siteKey s = k then some (upd (mapGet m k) s) else mapGet m k := by
  by_cases h : siteKey s = k
  · rw [if_pos h, keyedStep, ← h, mapGet_set_self]
  · rw [if_neg h, keyedStep, mapGet_set_ne]
    exact fun hh => h hh.symm

theorem keyedFold_get {β : Type} (upd : Option β → PTMSite → β) :
    ∀ (sites : List PTMSite) (m : List (String × β)) (k : String),
      mapGet (sites.foldl (keyedStep upd) m) k =
        (sites.filter fun s => siteKey s == k).foldl
          (fun acc s => some (upd acc s)) (mapGet m k) := by
  intro sites
  induction sites with
  | nil => intro m k; rfl
  | cons s rest ih =>
    intro m k
    rw [List.foldl_cons, ih]
    by_cases h : siteKey s = k
    · rw [List.filter_cons_of_pos (by simp [beq_iff_eq, h]), List.foldl_cons,
        keyedStep_get, if_pos h]
    · rw [List.filter_cons_of_neg (by simp [beq_iff_eq, h]), keyedStep_get, if_neg h]

theorem consolidatedSites_get (sites : List PTMSite) (k : String) :
    mapGet (consolidatedSites sites) k =
      (contributors sites k).foldl (fun acc s => some (entryUpd acc s)) none := by
  have hfold : consolidatedSites sites = sites.foldl (keyedStep entryUpd) [] := by
    rw [consolidatedSites]
    congr 1
    funext m s
    exact consolidateStep_eq m s
  rw [hfold, keyedFold_get, contributors]
  rfl

theorem lollipopConsolidatedSites_get (sites : List PTMSite) (k : String) :
    mapGet (lollipopConsolidatedSites sites) k =
      (contributors sites k).foldl (fun acc s => some (lollipopEntryUpd acc s)) none := by
  have hfold : lollipopConsolidatedSites sites = sites.foldl (keyedStep lollipopEntryUpd) [] := by
    rw [lollipopConsolidatedSites]
    congr 1
    funext m s
    exact lollipopStep_eq m s
  rw [hfold, keyedFold_get, contributors]
  rfl

theorem keyedFold_keys_nodup_mem {β : Type} (upd : Option β → PTMSite → β) :
    ∀ (sites : List PTMSite) (m : List (String × β)),
      ((m.map Prod.fst).Nodup →
        ((sites.foldl (keyedStep upd) m).map Prod.fst).Nodup)
      ∧ ∀ k, (k ∈ (sites.foldl (keyedStep upd) m).map Prod.fst ↔
          k ∈ m.map Prod.fst ∨ k ∈ sites.map siteKey) := by
  intro sites
  induction sites with
  | nil => intro m; exact ⟨fun h => h, fun k => by simp⟩
  | cons s rest ih =>
    intro m
    have hkeys : (keyedStep upd m s).map Prod.fst =
        if siteKey s ∈ m.map Prod.fst then m.map Prod.fst
        else m.map Prod.fst ++ [siteKey s] := mapKeys_set _ _ _
    constructor
    · intro hnd
      apply (ih (keyedStep upd m s)).1
      rw [hkeys]
      by_cases h : siteKey s ∈ m.map Prod.fst
      · rwa [if_pos h]
      · rw [if_neg h]
        refine List.Nodup.append hnd (List.nodup_singleton _) ?_
        simpa [List.disjoint_singleton] using h
    · intro k
      rw [List.foldl_cons, (ih (keyedStep upd m s)).2 k, hkeys]
      by_cases h : siteKey s ∈ m.map Prod.fst
      · rw [if_pos h]
        constructor
        · rintro (hm | hr)
          · exact Or.inl hm
          · exact Or.inr (by rw [List.map_cons, List.mem_cons]; exact Or.inr hr)
        · rintro (hm | hs)
          · exact Or.inl hm
          · rw [List.map_cons, List.mem_cons] at hs
            rcases hs with hk | hr
            · exact Or.inl (by rw [hk]; exact h)
            · exact Or.inr hr
      · rw [if_neg h]
        constructor
        · rintro (hmk | hr)
          · rcases List.mem_append.mp hmk with hm | hk
            · exact Or.inl hm
            · exact Or.inr (by
                rw [List.map_cons, List.mem_cons]
                exact Or.inl (List.mem_singleton.mp hk))
          · exact Or.inr (by rw [List.map_cons, List.mem_cons]; exact Or.inr hr)
        · rintro (hm | hs)
          · exact Or.inl (List.mem_append.mpr (Or.inl hm))
          · rw [List.map_cons, List.mem_cons] at hs
            rcases hs with hk | hr
            · exact Or.inl (List.mem_append.mpr (Or.inr (List.mem_singleton.mpr hk)))
            · exact Or.inr hr

/-! ### Injectivity of the string consolidation key

The JavaScript key is the string `` `${loc}_${mod}_${type}` ``.  Since the
decimal rendering of `loc` contains no underscore and the two possible
`type` strings contain no underscore either, the key determines the
(siteLocation, modificationType, evidenceClass) triple. -/

theorem digitChar_toNat_eq (m : Nat) (h : m < 10) : (Nat.digitChar m).toNat = 48 + m := by
  interval_cases m <;> decide

theorem digitChar_ne_underscore (m : Nat) (h : m < 10) : Nat.digitChar m ≠ '_' := by
  interval_cases m <;> decide

theorem toDigitsCore_append10 :
    ∀ (f n : Nat) (l : List Char),
      Nat.toDigitsCore 10 f n l = Nat.toDigitsCore 10 f n [] ++ l := by
  intro f
  induction f with
  | zero => intro n l; rfl
  | succ f ih =>
    intro n l
    rw [Nat.toDigitsCore, Nat.toDigitsCore]
    by_cases h : n / 10 = 0
    · simp [h]
    · simp only [h, if_false]
      rw [ih (n / 10) (Nat.digitChar (n % 10) :: l), ih (n / 10) [Nat.digitChar (n % 10)]]
      simp

theorem mem_toDigitsCore10 :
    ∀ (f n : Nat) (c : Char), c ∈ Nat.toDigitsCore 10 f n [] →
      ∃ m, m < 10 ∧ c = Nat.digitChar m := by
  intro f
  induction f with
  | zero => intro n c h; simp [Nat.toDigitsCore] at h
  | succ f ih =>
    intro n c h
    rw [Nat.toDigitsCore] at h
    by_cases hd : n / 10 = 0
    · simp only [hd, if_true] at h
      rcases List.mem_singleton.mp h with rfl
      exact ⟨n % 10, Nat.mod_lt _ (by norm_num), rfl⟩
    · simp only [hd, if_false] at h
      rw [toDigitsCore_append10] at h
      rcases List.mem_append.mp h with h1 | h2
      · exact ih (n / 10) c h1
      · rcases List.mem_singleton.mp h2 with rfl
        exact ⟨n % 10, Nat.mod_lt _ (by norm_num), rfl⟩

theorem repr_data_eq (n : Nat) : (Nat.repr n).data = Nat.toDigitsCore 10 (n + 1) n [] := rfl

theorem underscore_not_mem_repr (n : Nat) : '_' ∉ (Nat.repr n).data := by
  intro h
  rw [repr_data_eq] at h
  rcases mem_toDigitsCore10 (n + 1) n '_' h with ⟨m, hm, he⟩
  exact digitChar_ne_underscore m hm he.symm

theorem decodeDigits_append (l : List Char) (c : Char) :
    (l ++ [c]).foldl (fun acc c => 10 * acc + (c.toNat - 48)) 0 =
      10 * decodeDigits l + (c.toNat - 48) := by
  rw [List.foldl_append]
  rfl

theorem decode_toDigitsCore10 :
    ∀ (f n : Nat), n < f → decodeDigits (Nat.toDigitsCore 10 f n []) = n := by
  intro f
  induction f with
  | zero => intro n h; omega
  | succ f ih =>
    intro n h
    rw [Nat.toDigitsCore]
    by_cases hd : n / 10 = 0
    · have hn : n < 10 := by omega
      simp only [hd, if_true]
      show 10 * 0 + ((Nat.digitChar (n % 10)).toNat - 48) = n
      rw [digitChar_toNat_eq (n % 10) (Nat.mod_lt _ (by norm_num))]
      omega
    · simp only [hd, if_false]
      rw [toDigitsCore_append10, decodeDigits, decodeDigits_append,
        ih (n / 10) (by omega),
        digitChar_toNat_eq (n % 10) (Nat.mod_lt _ (by norm_num))]
      omega

theorem natRepr_injective : Function.Injective Nat.repr := by
  intro a b h
  have hd : (Nat.repr a).data = (Nat.repr b).data := by rw [h]
  rw [repr_data_eq, repr_data_eq] at hd
  have ha := decode_toDigitsCore10 (a + 1) a (by omega)
  have hb := decode_toDigitsCore10 (b + 1) b (by omega)
  rw [hd] at ha
  omega

theorem append_sep_inj {c : Char} :
    ∀ (a1 a2 b1 b2 : List Char), c ∉ a1 → c ∉ a2 →
      a1 ++ c :: b1 = a2 ++ c :: b2 → a1 = a2 ∧ b1 = b2 := by
  intro a1
  induction a1 with
  | nil =>
    intro a2 b1 b2 _ h2 he
    cases a2 with
    | nil => exact ⟨rfl, by simpa using he⟩
    | cons x xs =>
      rw [List.nil_append, List.cons_append] at he
      have hx : c = x := (List.cons.injEq _ _ _ _).mp he |>.1
      exact absurd (hx ▸ List.mem_cons_self x xs) h2
  | cons x xs ih =>
    intro a2 b1 b2 h1 h2 he
    cases a2 with
    | nil =>
      rw [List.cons_append, List.nil_append] at he
      have hx : x = c := (List.cons.injEq _ _ _ _).mp he |>.1
      exact absurd (List.mem_cons_self x xs) (by rw [hx] at h1 ⊢; exact h1)
    | cons y ys =>
      rw [List.cons_append, List.cons_append] at he
      have hxy := (List.cons.injEq _ _ _ _).mp he
      have hrec := ih ys b1 b2 (fun hc => h1 (List.mem_cons_of_mem _ hc))
        (fun hc => h2 (List.mem_cons_of_mem _ hc)) hxy.2
      exact ⟨by rw [hxy.1, hrec.1], hrec.2⟩

theorem siteKey_eq_keyEnc (s : PTMSite) : siteKey s = keyEnc (consolidationKeyTriple s) := rfl

theorem underscore_not_mem_evTypeStr (t : EvType) : '_' ∉ (evTypeStr t).data.reverse := by
  cases t <;> decide

theorem evTypeStr_injective : Function.Injective evTypeStr := by
  intro a b h
  cases a <;> cases b <;> first | rfl | exact absurd h (by decide)

theorem keyEnc_injective : Function.Injective keyEnc := by
  rintro ⟨l1, m1, t1⟩ ⟨l2, m2, t2⟩ h
  have hd : (keyEnc (l1, m1, t1)).data = (keyEnc (l2, m2, t2)).data := by rw [h]
  simp only [keyEnc, String.data_append] at hd
  have hd' : (Nat.repr l1).data ++ '_' :: (m1.data ++ '_' :: (evTypeStr t1).data) =
      (Nat.repr l2).data ++ '_' :: (m2.data ++ '_' :: (evTypeStr t2).data) := by
    simpa using hd
  have h1 := append_sep_inj _ _ _ _ (underscore_not_mem_repr l1) (underscore_not_mem_repr l2) hd'
  have hloc : l1 = l2 := natRepr_injective (String.ext h1.1)
  have h2 : (evTypeStr t1).data.reverse ++ '_' :: m1.data.reverse =
      (evTypeStr t2).data.reverse ++ '_' :: m2.data.reverse := by
    have := congrArg List.reverse h1.2
    simpa [List.reverse_append] using this
  have h3 := append_sep_inj _ _ _ _ (underscore_not_mem_evTypeStr t1)
    (underscore_not_mem_evTypeStr t2) h2
  have ht : t1 = t2 := evTypeStr_injective (String.ext (List.reverse_injective h3.1))
  have hm : m1 = m2 := String.ext (List.reverse_injective h3.2)
  rw [hloc, ht, hm]

theorem consolidatedSites_eq_keyedFold (sites : List PTMSite) :
    consolidatedSites sites = sites.foldl (keyedStep entryUpd) [] := by
  rw [consolidatedSites]
  congr 1
  funext m s
  exact consolidateStep_eq m s

theorem consolidatedSites_keys_nodup (sites : List PTMSite) :
    ((consolidatedSites sites).map Prod.fst).Nodup := by
  rw [consolidatedSites_eq_keyedFold]
  exact (keyedFold_keys_nodup_mem entryUpd sites []).1 (by simp)

theorem consolidatedSites_keys_mem (sites : List PTMSite) (k : String) :
    k ∈ (consolidatedSites sites).map Prod.fst ↔ k ∈ sites.map siteKey := by
  rw [consolidatedSites_eq_keyedFold]
  rw [(keyedFold_keys_nodup_mem entryUpd sites []).2 k]
  simp

theorem mapGet_of_mem_nodup {β : Type} :
    ∀ (m : List (String × β)), (m.map Prod.fst).Nodup →
      ∀ (k : String) (v : β), (k, v) ∈ m → mapGet m k = some v := by
  intro m
  induction m with
  | nil => intro _ k v h; simp at h
  | cons p rest ih =>
    intro hnd k v h
    rcases List.mem_cons.mp h with rfl | hmem
    · rw [mapGet_cons, if_pos rfl]
    · have hk : k ∈ rest.map Prod.fst := List.mem_map.mpr ⟨(k, v), hmem, rfl⟩
      rw [List.map_cons] at hnd
      have hpair := List.nodup_cons.mp hnd
      have hne : p.1 ≠ k := by
        intro he
        rw [he] at hpair
        exact hpair.1 hk
      rw [mapGet_cons, if_neg hne]
      exact ih hpair.2 k v hmem

theorem consolidatedSites_mem_get (sites : List PTMSite)
    (kv : String × ConsolidatedPTMSite) (h : kv ∈ consolidatedSites sites) :
    mapGet (consolidatedSites sites) kv.1 = some kv.2 :=
  mapGet_of_mem_nodup _ (consolidatedSites_keys_nodup sites) kv.1 kv.2 h

/-- **C1.** For every input sequence of raw observations the consolidation
fold of `PTMSitesTable.tsx` produces exactly one entry per distinct
(siteLocation, modificationType, evidenceClass) triple: the map's size
equals the number of distinct triples, and two observations share a map key
iff they share the triple — the condition label is not part of the key. -/
theorem C1_consolidation_one_entry_per_triple :
    (∀ sites : List PTMSite,
      (consolidatedSites sites).length = (sites.map consolidationKeyTriple).toFinset.card)
    ∧ (∀ a b : PTMSite, siteKey a = siteKey b ↔
        consolidationKeyTriple a = consolidationKeyTriple b) := by
  constructor
  · intro sites
    have hlen : (consolidatedSites sites).length =
        ((consolidatedSites sites).map Prod.fst).length := (List.length_map _ _).symm
    have hnd := consolidatedSites_keys_nodup sites
    have hcard : ((consolidatedSites sites).map Prod.fst).toFinset.card =
        ((consolidatedSites sites).map Prod.fst).length := List.toFinset_card_of_nodup hnd
    have hsetEq : ((consolidatedSites sites).map Prod.fst).toFinset =
        (sites.map siteKey).toFinset := by
      apply Finset.ext
      intro k
      rw [List.mem_toFinset, List.mem_toFinset]
      exact consolidatedSites_keys_mem sites k
    have hmapEq : sites.map siteKey = (sites.map consolidationKeyTriple).map keyEnc := by
      rw [List.map_map]
      apply List.map_congr_left
      intro s _
      exact siteKey_eq_keyEnc s
    have himg : ((sites.map consolidationKeyTriple).map keyEnc).toFinset =
        (sites.map consolidationKeyTriple).toFinset.image keyEnc := by
      apply Finset.ext
      intro x
      simp
    rw [hlen, ← hcard, hsetEq, hmapEq, himg,
      Finset.card_image_of_injective _ keyEnc_injective]
  · intro a b
    constructor
    · intro h
      exact keyEnc_injective (by
        rw [← siteKey_eq_keyEnc, ← siteKey_eq_keyEnc, h])
    · intro h
      rw [siteKey_eq_keyEnc, siteKey_eq_keyEnc, h]

/-! ### Projections of the consolidation step -/

theorem updateSite_peptideCount (e : ConsolidatedPTMSite) (s : PTMSite) :
    (updateSite e s).peptideCount = e.peptideCount + 1 := by
  cases hc : s.candidateUniprotIds <;> by_cases ha : s.ambiguous = some true <;>
    simp [updateSite, ha, hc]

theorem updateSite_conditionQuantities (e : ConsolidatedPTMSite) (s : PTMSite) :
    (updateSite e s).conditionQuantities =
      updateCondQuantities e.conditionQuantities (condLabel s.condition) s.quantity := by
  cases hc : s.candidateUniprotIds <;> by_cases ha : s.ambiguous = some true <;>
    simp [updateSite, ha, hc]

theorem updateSite_siteAA (e : ConsolidatedPTMSite) (s : PTMSite) :
    (updateSite e s).siteAA = e.siteAA := by
  cases hc : s.candidateUniprotIds <;> by_cases ha : s.ambiguous = some true <;>
    simp [updateSite, ha, hc]

theorem updateSite_siteProbability (e : ConsolidatedPTMSite) (s : PTMSite) :
    (updateSite e s).siteProbability = probMerge e.siteProbability s.siteProbability := by
  cases hc : s.candidateUniprotIds <;> by_cases ha : s.ambiguous = some true <;>
    simp [updateSite, ha, hc]

theorem initSite_peptideCount (s : PTMSite) : (initSite s).peptideCount = 1 := rfl

theorem initSite_conditionQuantities (s : PTMSite) :
    (initSite s).conditionQuantities = [newCond (condLabel s.condition) s.quantity] := rfl

theorem initSite_siteAA (s : PTMSite) : (initSite s).siteAA = s.siteAA := rfl

theorem initSite_siteProbability (s : PTMSite) :
    (initSite s).siteProbability = s.siteProbability := rfl

/-! ### Entry invariants through the fold -/

theorem entryFold_invariant {P : ConsolidatedPTMSite → Prop}
    (hinit : ∀ s, P (initSite s)) (hupd : ∀ e s, P e → P (updateSite e s)) :
    ∀ (cs : List PTMSite) (acc : Option ConsolidatedPTMSite),
      (∀ e, acc = some e → P e) →
      ∀ e, cs.foldl (fun acc s => some (entryUpd acc s)) acc = some e → P e := by
  intro cs
  induction cs with
  | nil => intro acc hacc e he; exact hacc e he
  | cons s rest ih =>
    intro acc hacc e he
    rw [List.foldl_cons] at he
    refine ih (some (entryUpd acc s)) ?_ e he
    intro e' he'
    cases acc with
    | none =>
      have : entryUpd none s = initSite s := rfl
      rw [this] at he'
      exact (Option.some.injEq _ _).mp he' ▸ hinit s
    | some a =>
      have : entryUpd (some a) s = updateSite a s := rfl
      rw [this] at he'
      exact (Option.some.injEq _ _).mp he' ▸ hupd a s (hacc a rfl)

theorem consolidatedSites_entry_invariant {P : ConsolidatedPTMSite → Prop}
    (hinit : ∀ s, P (initSite s)) (hupd : ∀ e s, P e → P (updateSite e s))
    (sites : List PTMSite) (kv : String × ConsolidatedPTMSite)
    (h : kv ∈ consolidatedSites sites) : P kv.2 := by
  have hget := consolidatedSites_mem_get sites kv h
  rw [consolidatedSites_get] at hget
  exact entryFold_invariant hinit hupd _ none (by intro e he; cases he) kv.2 hget

/-! ### C2: peptideCount equals the sum of per-condition peptideCounts -/

theorem bumpCond_peptideCount (q : Option JSNum) (cq : CondQuant) :
    (bumpCond q cq).peptideCount = cq.peptideCount + 1 := by
  cases q <;> rfl

theorem sumPC_updateFirst (q : Option JSNum) (p : CondQuant → Bool) :
    ∀ l : List CondQuant, (l.find? p).isSome →
      sumPC (updateFirst p (bumpCond q) l) = sumPC l + 1 := by
  intro l
  induction l with
  | nil => intro h; simp [List.find?] at h
  | cons y ys ih =>
    intro h
    by_cases hp : p y = true
    · rw [updateFirst, if_pos hp]
      simp only [sumPC, List.map_cons, List.sum_cons, bumpCond_peptideCount]
      have : sumPC (y :: ys) = y.peptideCount + sumPC ys := by
        simp [sumPC]
      omega
    · rw [updateFirst, if_neg hp]
      have hys : (ys.find? p).isSome := by
        rw [List.find?_cons] at h
        cases hpy : p y with
        | true => exact absurd hpy hp
        | false => rwa [hpy] at h
      have := ih hys
      simp only [sumPC, List.map_cons, List.sum_cons] at *
      omega

theorem sumPC_updateCondQuantities (cqs : List CondQuant) (ck : String) (q : Option JSNum) :
    sumPC (updateCondQuantities cqs ck q) = sumPC cqs + 1 := by
  rw [updateCondQuantities]
  cases hf : cqs.find? (fun cq => cq.condition == ck) with
  | none =>
    simp only [sumPC, List.map_append, List.sum_append]
    have : (newCond ck q).peptideCount = 1 := rfl
    simp [this]
  | some x =>
    exact sumPC_updateFirst q _ cqs (by rw [hf]; rfl)

/-- **C2.** After every fold step (equivalently: for every input observation
list), each consolidated entry's `peptideCount` equals the sum of the
`peptideCount` fields of its per-condition entries. -/
theorem C2_peptideCount_invariant (sites : List PTMSite)
    (kv : String × ConsolidatedPTMSite) (h : kv ∈ consolidatedSites sites) :
    kv.2.peptideCount = sumPC kv.2.conditionQuantities := by
  refine @consolidatedSites_entry_invariant
    (fun e => e.peptideCount = sumPC e.conditionQuantities) ?_ ?_ sites kv h
  · intro s
    rw [initSite_peptideCount, initSite_conditionQuantities]
    rfl
  · intro e s he
    rw [updateSite_peptideCount, updateSite_conditionQuantities,
      sumPC_updateCondQuantities, he]

/-- Witness for C2 at a concrete input: two observations of the same site
under two conditions. -/
theorem C2_peptideCount_invariant_witness :
    (({ siteLocation := 10, modificationType := "Oxidation (M)", type := .experimental,
        condition := some "A", quantity := some (JSNum.fin 5) } : PTMSite) ::
      [{ siteLocation := 10, modificationType := "Oxidation (M)", type := .experimental,
         condition := some "B", quantity := some (JSNum.fin 7) }]).foldl
            consolidateStep [] ≠ [] ∧
    ∀ kv ∈ consolidatedSites
        [{ siteLocation := 10, modificationType := "Oxidation (M)", type := .experimental,
           condition := some "A", quantity := some (JSNum.fin 5) },
         { siteLocation := 10, modificationType := "Oxidation (M)", type := .experimental,
           condition := some "B", quantity := some (JSNum.fin 7) }],
      kv.2.peptideCount = sumPC kv.2.conditionQuantities :=
  ⟨by decide, fun kv h => C2_peptideCount_invariant _ kv h⟩

/-! ### C8: per-condition average quantity -/

theorem divNat_one (v : JSNum) : v.divNat 1 = v := by
  cases v <;> simp [JSNum.divNat]

theorem mem_updateFirst {α : Type} (p : α → Bool) (f : α → α) :
    ∀ (l : List α) (x : α), x ∈ updateFirst p f l →
      x ∈ l ∨ ∃ y, y ∈ l ∧ p y ∧ x = f y := by
  intro l
  induction l with
  | nil => intro x h; simp [updateFirst] at h
  | cons y ys ih =>
    intro x h
    by_cases hp : p y = true
    · rw [updateFirst, if_pos hp] at h
      rcases List.mem_cons.mp h with rfl | hmem
      · exact Or.inr ⟨y, List.mem_cons_self _ _, hp, rfl⟩
      · exact Or.inl (List.mem_cons_of_mem _ hmem)
    · rw [updateFirst, if_neg hp] at h
      rcases List.mem_cons.mp h with rfl | hmem
      · exact Or.inl (List.mem_cons_self _ _)
      · rcases ih x hmem with hin | ⟨z, hz, hpz, hxz⟩
        · exact Or.inl (List.mem_cons_of_mem _ hin)
        · exact Or.inr ⟨z, List.mem_cons_of_mem _ hz, hpz, hxz⟩

theorem condAvgOk_newCond (ck : String) (q : Option JSNum) : condAvgOk (newCond ck q) := by
  cases q with
  | none => exact ⟨fun _ => rfl, fun h => absurd h (by simp [newCond])⟩
  | some v =>
    refine ⟨fun h => absurd h (by simp [newCond]), fun _ => ?_⟩
    show some v = some ((newCond ck (some v)).quantitySum.divNat (newCond ck (some v)).quantityCount)
    have h1 : (newCond ck (some v)).quantitySum = v := rfl
    have h2 : (newCond ck (some v)).quantityCount = 1 := rfl
    rw [h1, h2, divNat_one]

theorem condAvgOk_bumpCond (q : Option JSNum) (cq : CondQuant) (h : condAvgOk cq) :
    condAvgOk (bumpCond q cq) := by
  cases q with
  | none => exact h
  | some v =>
    constructor
    · intro hc
      exact absurd hc (by simp [bumpCond])
    · intro _
      rfl

theorem condAvgOk_updateCondQuantities (cqs : List CondQuant) (ck : String)
    (q : Option JSNum) (h : ∀ cq ∈ cqs, condAvgOk cq) :
    ∀ cq ∈ updateCondQuantities cqs ck q, condAvgOk cq := by
  intro cq hmem
  rw [updateCondQuantities] at hmem
  cases hf : cqs.find? (fun c => c.condition == ck) with
  | none =>
    rw [hf] at hmem
    rcases List.mem_append.mp hmem with hin | hnew
    · exact h cq hin
    · rw [List.mem_singleton.mp hnew]
      exact condAvgOk_newCond ck q
  | some x =>
    rw [hf] at hmem
    rcases mem_updateFirst _ _ cqs cq hmem with hin | ⟨y, hy, _, hxy⟩
    · exact h cq hin
    · rw [hxy]
      exact condAvgOk_bumpCond q y (h y hy)

/-- **C8.** In every consolidated entry and per-condition record, the
reported average `quantity` is `quantitySum / quantityCount` computed only
when `quantityCount > 0`, and is absent (`none`) whenever
`quantityCount = 0` — the division-by-zero branch is never reached. -/
theorem C8_avg_quantity_no_div_zero (sites : List PTMSite)
    (kv : String × ConsolidatedPTMSite) (h : kv ∈ consolidatedSites sites) :
    ∀ cq ∈ kv.2.conditionQuantities, condAvgOk cq := by
  refine @consolidatedSites_entry_invariant
    (fun e => ∀ cq ∈ e.conditionQuantities, condAvgOk cq) ?_ ?_ sites kv h
  · intro s cq hmem
    rw [initSite_conditionQuantities] at hmem
    rw [List.mem_singleton.mp hmem]
    exact condAvgOk_newCond _ _
  · intro e s he cq hmem
    rw [updateSite_conditionQuantities] at hmem
    exact condAvgOk_updateCondQuantities _ _ _ he cq hmem

/-- Witness for C8 at a concrete input: one quantified and one quantity-free
observation of the same site and condition. -/
theorem C8_avg_quantity_no_div_zero_witness :
    (consolidatedSites
      [{ siteLocation := 5, modificationType := "Phospho (STY)", type := .experimental,
         condition := some "ctrl", quantity := some (JSNum.fin 4) },
       { siteLocation := 5, modificationType := "Phospho (STY)", type := .experimental,
         condition := some "stim", quantity := none }] ≠ []) ∧
    ∀ kv ∈ consolidatedSites
        [{ siteLocation := 5, modificationType := "Phospho (STY)", type := .experimental,
           condition := some "ctrl", quantity := some (JSNum.fin 4) },
         { siteLocation := 5, modificationType := "Phospho (STY)", type := .experimental,
           condition := some "stim", quantity := none }],
      ∀ cq ∈ kv.2.conditionQuantities, condAvgOk cq :=
  ⟨by decide, fun kv h => C8_avg_quantity_no_div_zero _ kv h⟩

/-! ### C10: siteAA keeps the first observation's value -/

theorem entryFold_siteAA :
    ∀ (cs : List PTMSite) (a e : ConsolidatedPTMSite),
      cs.foldl (fun acc s => some (entryUpd acc s)) (some a) = some e →
      e.siteAA = a.siteAA := by
  intro cs
  induction cs with
  | nil => intro a e h; rw [(Option.some.injEq _ _).mp h]
  | cons s rest ih =>
    intro a e h
    rw [List.foldl_cons] at h
    have : entryUpd (some a) s = updateSite a s := rfl
    rw [this] at h
    rw [ih (updateSite a s) e h, updateSite_siteAA]

/-- **C10 (amended).** A consolidated entry's `siteAA` equals the *first*
contributing observation's `siteAA` — whether or not that value is empty or
absent; later non-empty values are never taken. -/
theorem C10_siteAA_first_seen (sites : List PTMSite) (k : String)
    (e : ConsolidatedPTMSite) (h : mapGet (consolidatedSites sites) k = some e) :
    ∃ c0 rest, contributors sites k = c0 :: rest ∧ e.siteAA = c0.siteAA := by
  rw [consolidatedSites_get] at h
  cases hcs : contributors sites k with
  | nil => rw [hcs] at h; exact absurd h (by simp)
  | cons c0 rest =>
    rw [hcs, List.foldl_cons] at h
    have hinit : entryUpd none c0 = initSite c0 := rfl
    rw [hinit] at h
    exact ⟨c0, rest, rfl, (entryFold_siteAA rest _ e h).trans (initSite_siteAA c0)⟩

/-- Witness for the amended C10 at a concrete input. -/
theorem C10_siteAA_first_seen_witness :
    (mapGet (consolidatedSites
        [{ siteLocation := 2, modificationType := "Acetyl (K)", type := .known,
           siteAA := some "K" },
         { siteLocation := 2, modificationType := "Acetyl (K)", type := .known,
           siteAA := some "R" }]) "2_Acetyl (K)_known").isSome ∧
    ∀ e, mapGet (consolidatedSites
        [{ siteLocation := 2, modificationType := "Acetyl (K)", type := .known,
           siteAA := some "K" },
         { siteLocation := 2, modificationType := "Acetyl (K)", type := .known,
           siteAA := some "R" }]) "2_Acetyl (K)_known" = some e →
      ∃ c0 rest, contributors
          [{ siteLocation := 2, modificationType := "Acetyl (K)", type := .known,
             siteAA := some "K" },
           { siteLocation := 2, modificationType := "Acetyl (K)", type := .known,
             siteAA := some "R" }] "2_Acetyl (K)_known" = c0 :: rest ∧
        e.siteAA = c0.siteAA :=
  ⟨by decide, fun e h => C10_siteAA_first_seen _ _ e h⟩

/-- **C10 (counterexample).** The claim "siteAA is the first *non-empty*
value seen" fails: with a first observation carrying no `siteAA` and a
second carrying `"K"`, the consolidated entry's `siteAA` stays absent. -/
theorem C10_siteAA_counterexample :
    ((consolidatedSites
        [{ siteLocation := 2, modificationType := "P", type := .known, siteAA := none },
         { siteLocation := 2, modificationType := "P", type := .known,
           siteAA := some "K" }]).map (fun kv => kv.2.siteAA) = [none]) ∧
    siteKey ({ siteLocation := 2, modificationType := "P", type := .known,
               siteAA := none } : PTMSite) =
      siteKey ({ siteLocation := 2, modificationType := "P", type := .known,
                 siteAA := some "K" } : PTMSite) := by
  constructor
  · decide
  · rfl

/-! ### C3: siteProbability aggregation -/

theorem probMerge_falsy_left (p0 p1 : Option JSNum) (h : truthyOpt p0 = false) :
    probMerge p0 p1 = p1 := by
  cases p0 with
  | none => rfl
  | some a =>
    have ha : a.truthy = false := h
    cases p1 with
    | none => simp [probMerge, ha]
    | some b => simp [probMerge, ha]

theorem jmax_truthy (a b : JSNum) (ha : a.truthy = true) (hb : b.truthy = true) :
    (a.jmax b).truthy = true := by
  cases a with
  | fin qa =>
    cases b with
    | fin qb =>
      simp only [JSNum.jmax, JSNum.truthy, decide_eq_true_eq] at ha hb ⊢
      rcases max_choice qa qb with h | h <;> rw [h] <;> assumption
    | nan => exact absurd hb (by simp [JSNum.truthy])
    | inf => rfl
    | ninf => exact ha
  | nan => exact absurd ha (by simp [JSNum.truthy])
  | inf =>
    cases b with
    | fin qb => rfl
    | nan => exact absurd hb (by simp [JSNum.truthy])
    | inf => rfl
    | ninf => rfl
  | ninf =>
    cases b with
    | fin qb => exact hb
    | nan => exact absurd hb (by simp [JSNum.truthy])
    | inf => rfl
    | ninf => rfl

theorem truthy_ne_nan (v : JSNum) (h : v.truthy = true) : v ≠ JSNum.nan := by
  cases v <;> simp_all [JSNum.truthy]

theorem jle_refl (a : JSNum) (h : a ≠ JSNum.nan) : a.jle a = true := by
  cases a <;> simp_all [JSNum.jle]

theorem jle_trans (a b c : JSNum) (h1 : a.jle b = true) (h2 : b.jle c = true) :
    a.jle c = true := by
  cases a <;> cases b <;> cases c <;> simp_all [JSNum.jle]
  exact le_trans h1 h2

theorem jle_max_left (a b : JSNum) (ha : a ≠ JSNum.nan) (hb : b ≠ JSNum.nan) :
    a.jle (a.jmax b) = true := by
  cases a <;> cases b <;> simp_all [JSNum.jle, JSNum.jmax]

theorem jle_max_right (a b : JSNum) (ha : a ≠ JSNum.nan) (hb : b ≠ JSNum.nan) :
    b.jle (a.jmax b) = true := by
  cases a <;> cases b <;> simp_all [JSNum.jle, JSNum.jmax]

theorem jmax_ne_nan (a b : JSNum) (ha : a ≠ JSNum.nan) (hb : b ≠ JSNum.nan) :
    a.jmax b ≠ JSNum.nan := by
  cases a <;> cases b <;> simp_all [JSNum.jmax]

theorem truthyVals_mem (ps : List (Option JSNum)) (x : JSNum) (h : x ∈ truthyVals ps) :
    x.truthy = true := by
  rw [truthyVals, List.mem_filterMap] at h
  rcases h with ⟨p, _, hp⟩
  cases p with
  | none => simp at hp
  | some v =>
    by_cases hv : v.truthy = true
    · simp only [hv, if_true] at hp
      rw [← (Option.some.injEq _ _).mp hp]
      exact hv
    · simp [hv] at hp

theorem foldMax_bound :
    ∀ (vs : List JSNum) (v : JSNum), v ≠ JSNum.nan → (∀ x ∈ vs, x ≠ JSNum.nan) →
      v.jle (vs.foldl JSNum.jmax v) = true
      ∧ ∀ x ∈ vs, x.jle (vs.foldl JSNum.jmax v) = true := by
  intro vs
  induction vs with
  | nil => intro v hv _; exact ⟨jle_refl v hv, by intro x hx; simp at hx⟩
  | cons b rest ih =>
    intro v hv hall
    have hb : b ≠ JSNum.nan := hall b (List.mem_cons_self _ _)
    have hrest : ∀ x ∈ rest, x ≠ JSNum.nan := fun x hx => hall x (List.mem_cons_of_mem _ hx)
    have hmax : v.jmax b ≠ JSNum.nan := jmax_ne_nan v b hv hb
    have hih := ih (v.jmax b) hmax hrest
    rw [List.foldl_cons]
    refine ⟨jle_trans _ _ _ (jle_max_left v b hv hb) hih.1, ?_⟩
    intro x hx
    rcases List.mem_cons.mp hx with rfl | hx'
    · exact jle_trans _ _ _ (jle_max_right v x hv hb) hih.1
    · exact hih.2 x hx'

theorem probRun_truthy :
    ∀ (ps : List (Option JSNum)) (v : JSNum), v.truthy = true →
      ps.foldl probMerge (some v) = some ((truthyVals ps).foldl JSNum.jmax v) := by
  intro ps
  induction ps with
  | nil => intro v _; rfl
  | cons p1 rest ih =>
    intro v hv
    rw [List.foldl_cons]
    cases p1 with
    | none =>
      have hm : probMerge (some v) none = some v := by simp [probMerge, hv]
      rw [hm, ih v hv]
      rfl
    | some b =>
      by_cases hb : b.truthy = true
      · have hm : probMerge (some v) (some b) = some (v.jmax b) := by
          simp [probMerge, hv, hb]
        rw [hm, ih _ (jmax_truthy v b hv hb)]
        have htv : truthyVals (some b :: rest) = b :: truthyVals rest := by
          simp [truthyVals, List.filterMap_cons, hb]
        rw [htv, List.foldl_cons]
      · have hm : probMerge (some v) (some b) = some v := by
          have hb' : b.truthy = false := Bool.eq_false_iff.mpr hb
          simp [probMerge, hv, hb']
        rw [hm, ih v hv]
        have htv : truthyVals (some b :: rest) = truthyVals rest := by
          have hb' : b.truthy = false := Bool.eq_false_iff.mpr hb
          simp [truthyVals, List.filterMap_cons, hb']
        rw [htv]

theorem probChar :
    ∀ (ps : List (Option JSNum)) (p0 : Option JSNum),
      (truthyVals (p0 :: ps) = [] → truthyOpt (ps.foldl probMerge p0) = false)
      ∧ ∀ v vs, truthyVals (p0 :: ps) = v :: vs →
          ps.foldl probMerge p0 = some (vs.foldl JSNum.jmax v) := by
  intro ps
  induction ps with
  | nil =>
    intro p0
    constructor
    · intro h
      cases p0 with
      | none => rfl
      | some w =>
        by_cases hw : w.truthy = true
        · exfalso
          have : truthyVals [some w] = [w] := by simp [truthyVals, List.filterMap_cons, hw]
          rw [this] at h
          cases h
        · exact Bool.eq_false_iff.mpr hw
    · intro v vs h
      cases p0 with
      | none => simp [truthyVals] at h
      | some w =>
        by_cases hw : w.truthy = true
        · have : truthyVals [some w] = [w] := by simp [truthyVals, List.filterMap_cons, hw]
          rw [this] at h
          have hv : w = v := ((List.cons.injEq _ _ _ _).mp h).1
          have hvs : ([] : List JSNum) = vs := ((List.cons.injEq _ _ _ _).mp h).2
          rw [List.foldl_nil, ← hvs, List.foldl_nil, hv]
        · exfalso
          have hw' : w.truthy = false := Bool.eq_false_iff.mpr hw
          have : truthyVals [some w] = [] := by simp [truthyVals, List.filterMap_cons, hw']
          rw [this] at h
          cases h
  | cons p1 rest ih =>
    intro p0
    by_cases h0 : truthyOpt p0 = true
    · cases p0 with
      | none => simp [truthyOpt] at h0
      | some w =>
        have hw : w.truthy = true := h0
        have htv : truthyVals (some w :: p1 :: rest) = w :: truthyVals (p1 :: rest) := by
          simp [truthyVals, List.filterMap_cons, hw]
        constructor
        · intro h
          rw [htv] at h
          cases h
        · intro v vs h
          rw [htv] at h
          have hv : w = v := ((List.cons.injEq _ _ _ _).mp h).1
          have hvs : truthyVals (p1 :: rest) = vs := ((List.cons.injEq _ _ _ _).mp h).2
          rw [← hv, ← hvs]
          exact probRun_truthy (p1 :: rest) w hw
    · have h0' : truthyOpt p0 = false := Bool.eq_false_iff.mpr h0
      have hskip : truthyVals (p0 :: p1 :: rest) = truthyVals (p1 :: rest) := by
        cases p0 with
        | none => simp [truthyVals, List.filterMap_cons]
        | some w =>
          have hw : w.truthy = false := h0'
          simp [truthyVals, List.filterMap_cons, hw]
      have hfold : (p1 :: rest).foldl probMerge p0 = rest.foldl probMerge p1 := by
        rw [List.foldl_cons, probMerge_falsy_left p0 p1 h0']
      constructor
      · intro h
        rw [hskip] at h
        rw [hfold]
        exact (ih p1).1 h
      · intro v vs h
        rw [hskip] at h
        rw [hfold]
        exact (ih p1).2 v vs h

theorem entryFold_siteProbability :
    ∀ (cs : List PTMSite) (a e : ConsolidatedPTMSite),
      cs.foldl (fun acc s => some (entryUpd acc s)) (some a) = some e →
      e.siteProbability =
        (cs.map PTMSite.siteProbability).foldl probMerge a.siteProbability := by
  intro cs
  induction cs with
  | nil => intro a e h; rw [(Option.some.injEq _ _).mp h]; rfl
  | cons s rest ih =>
    intro a e h
    rw [List.foldl_cons] at h
    have hstep : entryUpd (some a) s = updateSite a s := rfl
    rw [hstep] at h
    rw [List.map_cons, List.foldl_cons, ← updateSite_siteProbability]
    exact ih (updateSite a s) e h

/-- **C3 (counterexample).** The claim "the consolidated `siteProbability`
is the running maximum with absent as −∞, and is absent only when every
contributing probability is absent" fails: a present probability of `0` is
falsy in JavaScript, so folding an observation with probability `0` and
then one with an absent probability yields an *absent* consolidated
probability even though a present probability contributed (and the stored
value decreased from `0` to absent). -/
theorem C3_siteProbability_counterexample :
    ((consolidatedSites
        [{ siteLocation := 1, modificationType := "P", type := .experimental,
           siteProbability := some (JSNum.fin 0) },
         { siteLocation := 1, modificationType := "P", type := .experimental,
           siteProbability := none }]).map (fun kv => kv.2.siteProbability) = [none]) ∧
    ({ siteLocation := 1, modificationType := "P", type := .experimental,
       siteProbability := some (JSNum.fin 0) } : PTMSite).siteProbability ≠ none := by
  constructor
  · decide
  · decide

/-- **C3 (amended).** Treating zero and `NaN` probabilities like absent
(JavaScript falsiness): a consolidated entry's `siteProbability` is the
running maximum of the truthy contributing probabilities — it equals the
fold of `Math.max` over them desugared left-to-right, and is ≥ each of
them; when no contribution is truthy the result is falsy (absent, zero or
`NaN`); and one fold step never decreases a truthy stored probability. -/
theorem C3_siteProbability_truthy_max :
    (∀ (sites : List PTMSite) (k : String) (e : ConsolidatedPTMSite),
      mapGet (consolidatedSites sites) k = some e →
      (truthyVals ((contributors sites k).map PTMSite.siteProbability) = [] →
        truthyOpt e.siteProbability = false)
      ∧ ∀ v vs, truthyVals ((contributors sites k).map PTMSite.siteProbability) = v :: vs →
          e.siteProbability = some (vs.foldl JSNum.jmax v)
          ∧ ∀ p ∈ v :: vs, p.jle (vs.foldl JSNum.jmax v) = true)
    ∧ (∀ (e : ConsolidatedPTMSite) (s : PTMSite),
        truthyOpt e.siteProbability = false
        ∨ ∃ x y, e.siteProbability = some x ∧
            (updateSite e s).siteProbability = some y ∧ x.jle y = true) := by
  constructor
  · intro sites k e h
    rw [consolidatedSites_get] at h
    cases hcs : contributors sites k with
    | nil => rw [hcs] at h; exact absurd h (by simp)
    | cons c0 rest =>
      rw [hcs, List.foldl_cons] at h
      have hinit : entryUpd none c0 = initSite c0 := rfl
      rw [hinit] at h
      have hprob := entryFold_siteProbability rest (initSite c0) e h
      rw [initSite_siteProbability] at hprob
      have hchar := probChar (rest.map PTMSite.siteProbability) c0.siteProbability
      have hmapc : (c0 :: rest).map PTMSite.siteProbability =
          c0.siteProbability :: rest.map PTMSite.siteProbability := rfl
      constructor
      · intro hempty
        rw [hmapc] at hempty
        rw [hprob]
        exact hchar.1 hempty
      · intro v vs hvs
        rw [hmapc] at hvs
        have heq := hchar.2 v vs hvs
        refine ⟨hprob.trans heq, ?_⟩
        have hvt : v.truthy = true := truthyVals_mem _ v (by rw [hvs]; exact List.mem_cons_self _ _)
        have hvst : ∀ x ∈ vs, x.truthy = true := fun x hx =>
          truthyVals_mem _ x (by rw [hvs]; exact List.mem_cons_of_mem _ hx)
        have hbound := foldMax_bound vs v (truthy_ne_nan v hvt)
          (fun x hx => truthy_ne_nan x (hvst x hx))
        intro p hp
        rcases List.mem_cons.mp hp with rfl | hp'
        · exact hbound.1
        · exact hbound.2 p hp'
  · intro e s
    by_cases h0 : truthyOpt e.siteProbability = true
    · cases hp : e.siteProbability with
      | none => rw [hp] at h0; exact absurd h0 (by simp [truthyOpt])
      | some x =>
        right
        rw [hp] at h0
        have hx : x.truthy = true := h0
        rw [updateSite_siteProbability, hp]
        cases hq : s.siteProbability with
        | none =>
          exact ⟨x, x, rfl, by simp [probMerge, hx], jle_refl x (truthy_ne_nan x hx)⟩
        | some b =>
          by_cases hb : b.truthy = true
          · refine ⟨x, x.jmax b, rfl, by simp [probMerge, hx, hb], ?_⟩
            exact jle_max_left x b (truthy_ne_nan x hx) (truthy_ne_nan b hb)
          · have hb' : b.truthy = false := Bool.eq_false_iff.mpr hb
            exact ⟨x, x, rfl, by simp [probMerge, hx, hb'], jle_refl x (truthy_ne_nan x hx)⟩
    · exact Or.inl (Bool.eq_false_iff.mpr h0)

/-- Witness for the amended C3 at a concrete input (probabilities 0.8 then
0.9 of the same site). -/
theorem C3_siteProbability_truthy_max_witness :
    ((mapGet (consolidatedSites
        [{ siteLocation := 10, modificationType := "Oxidation (M)", type := .experimental,
           siteProbability := some (JSNum.fin 1) },
         { siteLocation := 10, modificationType := "Oxidation (M)", type := .experimental,
           siteProbability := some (JSNum.fin 2) }])
        "10_Oxidation (M)_experimental").isSome = true) ∧
    ∀ e, mapGet (consolidatedSites
        [{ siteLocation := 10, modificationType := "Oxidation (M)", type := .experimental,
           siteProbability := some (JSNum.fin 1) },
         { siteLocation := 10, modificationType := "Oxidation (M)", type := .experimental,
           siteProbability := some (JSNum.fin 2) }])
        "10_Oxidation (M)_experimental" = some e →
      e.siteProbability = some ([JSNum.fin 2].foldl JSNum.jmax (JSNum.fin 1))
      ∧ ∀ p ∈ JSNum.fin 1 :: [JSNum.fin 2],
          p.jle ([JSNum.fin 2].foldl JSNum.jmax (JSNum.fin 1)) = true :=
  ⟨by decide, fun e h =>
    (C3_siteProbability_truthy_max.1 _ _ e h).2 (JSNum.fin 1) [JSNum.fin 2]
      (by decide)⟩

/-! ### C4 and C5: the sequence window extractor -/

theorem toNat_min_natCast (a : Int) (m : Nat) (ha : 0 ≤ a) :
    (min a (m : Int)).toNat = min a.toNat m := by
  rcases le_total a (m : Int) with h | h
  · rw [min_eq_left h, min_eq_left (by omega : a.toNat ≤ m)]
  · rw [min_eq_right h, min_eq_right (by omega : m ≤ a.toNat)]
    simp

theorem jsSliceList_nonneg (l : List Char) (a b : Int) (ha : 0 ≤ a) (hb : 0 ≤ b) :
    jsSliceList l a b = (l.take (min b.toNat l.length)).drop (min a.toNat l.length) := by
  simp only [jsSliceList, if_neg (by omega : ¬ a < 0), if_neg (by omega : ¬ b < 0)]
  rw [toNat_min_natCast a l.length ha, toNat_min_natCast b l.length hb]

/-- **C4.** For every sequence `S`, radius `W` and in-range 1-based position
`P` (`1 ≤ P ≤ len S`), the extracted window is
`left ++ "[" ++ S[P-1] ++ "]" ++ right` where the bracketed residue is the
0-based character `S[P-1]`, the left flank is the `min W (P-1)` characters
immediately before it and the right flank the `min W (len S - P)`
characters immediately after it. -/
theorem C4_sequence_window (s : String) (W : Nat) (P : Int)
    (h1 : 1 ≤ P) (h2 : P ≤ (s.length : Int)) :
    ∃ c, s.data.get? (P.toNat - 1) = some c ∧
      getSequenceWindow W P (some s) =
        String.mk ((s.data.take (P.toNat - 1)).drop (P.toNat - 1 - W)) ++ "[" ++
          String.mk [c] ++ "]" ++ String.mk ((s.data.drop P.toNat).take W) ∧
      ((s.data.take (P.toNat - 1)).drop (P.toNat - 1 - W)).length = min W (P.toNat - 1) ∧
      ((s.data.drop P.toNat).take W).length = min W (s.data.length - P.toNat) := by
  have hlen : s.length = s.data.length := rfl
  have hple : P.toNat ≤ s.data.length := by omega
  have hp1 : 1 ≤ P.toNat := by omega
  have hidx : P.toNat - 1 < s.data.length := by omega
  refine ⟨s.data.get ⟨P.toNat - 1, hidx⟩, List.get?_eq_get hidx, ?_, ?_, ?_⟩
  · have hsne : ¬ (s = "") := by
      intro he
      rw [he] at h2
      have h0 : ("" : String).length = 0 := rfl
      rw [h0] at h2
      omega
    have hwin : getSequenceWindow W P (some s) =
        jsSlice s (max 0 (P - 1 - W)) (P - 1) ++ "[" ++
          charInterp (jsCharAt s (P - 1)) ++ "]" ++
          jsSlice s P (min (s.length : Int) (P + W)) := by
      simp only [getSequenceWindow, if_neg hsne]
    have hchar : jsCharAt s (P - 1) = some (s.data.get ⟨P.toNat - 1, hidx⟩) := by
      rw [jsCharAt, if_neg (by omega : ¬ P - 1 < 0)]
      have : (P - 1).toNat = P.toNat - 1 := by omega
      rw [this]
      exact List.get?_eq_get hidx
    have hbefore : jsSlice s (max 0 (P - 1 - W)) (P - 1) =
        String.mk ((s.data.take (P.toNat - 1)).drop (P.toNat - 1 - W)) := by
      rw [jsSlice, jsSliceList_nonneg _ _ _ (by omega) (by omega)]
      have he : min (P - 1).toNat s.data.length = P.toNat - 1 := by omega
      have hs : min (max 0 (P - 1 - (W : Int))).toNat s.data.length = P.toNat - 1 - W := by
        omega
      rw [he, hs]
    have hafter : jsSlice s P (min (s.length : Int) (P + W)) =
        String.mk ((s.data.drop P.toNat).take W) := by
      rw [jsSlice, jsSliceList_nonneg _ _ _ (by omega) (by rw [hlen]; omega)]
      have hs : min P.toNat s.data.length = P.toNat := by omega
      have he : min (min ((s.length : Int)) (P + W)).toNat s.data.length =
          min s.data.length (P.toNat + W) := by
        rw [hlen]
        omega
      rw [he, hs]
      congr 1
      rw [List.take_drop]
      by_cases hc : P.toNat + W ≤ s.data.length
      · have : min s.data.length (P.toNat + W) = P.toNat + W := by omega
        rw [this]
      · have h1' : min s.data.length (P.toNat + W) = s.data.length := by omega
        rw [h1', List.take_length, List.take_of_length_le (by omega)]
    rw [hwin, hchar, hbefore, hafter]
    rfl
  · rw [List.length_drop, List.length_take]
    omega
  · rw [List.length_take, List.length_drop]

/-- Witness for C4: Scenario D of the spec — position 3 in `"MKVLAA"` with
radius 2 yields `"MK[V]LA"`. -/
theorem C4_sequence_window_witness :
    getSequenceWindow 2 3 (some "MKVLAA") = "MK[V]LA" ∧
    ∃ c, "MKVLAA".data.get? ((3 : Int).toNat - 1) = some c ∧
      getSequenceWindow 2 3 (some "MKVLAA") =
        String.mk (("MKVLAA".data.take ((3 : Int).toNat - 1)).drop ((3 : Int).toNat - 1 - 2)) ++
          "[" ++ String.mk [c] ++ "]" ++
          String.mk (("MKVLAA".data.drop (3 : Int).toNat).take 2) ∧
      (("MKVLAA".data.take ((3 : Int).toNat - 1)).drop ((3 : Int).toNat - 1 - 2)).length =
        min 2 ((3 : Int).toNat - 1) ∧
      (("MKVLAA".data.drop (3 : Int).toNat).take 2).length =
        min 2 ("MKVLAA".data.length - (3 : Int).toNat) :=
  ⟨by decide, C4_sequence_window "MKVLAA" 2 3 (by decide) (by decide)⟩

/-- **C5 (code evaluation at the failing input).** For position 50 against a
sequence of length 10, `getSequenceWindow` silently returns the garbage
string `"[undefined]"` (the out-of-range index yields JavaScript
`undefined`, which the template literal renders as text); no
`PositionOutOfRange` condition exists anywhere in the code. -/
theorem C5_out_of_range_returns_garbage :
    getSequenceWindow 7 50 (some "ABCDEFGHIJ") = "[undefined]" := by
  decide

/-! ### C7: quantitative-evidence condition tally -/

/-- **C7 (counterexample).** In the sites-table fold, `quantityCount` and
`quantitySum` are updated whenever a quantity is *present* — there is no
finiteness check: an observation with quantity `NaN` increments the
condition's `quantityCount` (and poisons `quantitySum`). -/
theorem C7_nonfinite_quantity_counterexample :
    ((consolidatedSites
        [{ siteLocation := 3, modificationType := "P", type := .experimental,
           condition := some "A", quantity := none },
         { siteLocation := 3, modificationType := "P", type := .experimental,
           condition := some "A", quantity := some JSNum.nan }]).map
      (fun kv => kv.2.conditionQuantities.map
        (fun cq => (cq.quantityCount, cq.quantitySum))) = [[(1, JSNum.nan)]]) ∧
    JSNum.nan.isFin = false := by
  constructor
  · decide
  · rfl

theorem lollipopConsolidatedSites_eq_keyedFold (sites : List PTMSite) :
    lollipopConsolidatedSites sites = sites.foldl (keyedStep lollipopEntryUpd) [] := by
  rw [lollipopConsolidatedSites]
  congr 1
  funext m s
  exact lollipopStep_eq m s

theorem lollipopConsolidatedSites_keys_nodup (sites : List PTMSite) :
    ((lollipopConsolidatedSites sites).map Prod.fst).Nodup := by
  rw [lollipopConsolidatedSites_eq_keyedFold]
  exact (keyedFold_keys_nodup_mem lollipopEntryUpd sites []).1 (by simp)

theorem lollipopConsolidatedSites_mem_get (sites : List PTMSite)
    (kv : String × LollipopSite) (h : kv ∈ lollipopConsolidatedSites sites) :
    mapGet (lollipopConsolidatedSites sites) kv.1 = some kv.2 :=
  mapGet_of_mem_nodup _ (lollipopConsolidatedSites_keys_nodup sites) kv.1 kv.2 h

theorem hasQuantEvidence_spec (s : PTMSite) (h : hasQuantEvidence s = true) :
    ∃ c, s.condition = some c ∧ jsTrim c ≠ "" ∧ ∃ q, s.quantity = some (JSNum.fin q) := by
  rw [hasQuantEvidence] at h
  cases hc : s.condition with
  | none => rw [hc] at h; cases h
  | some c =>
    cases hq : s.quantity with
    | none => rw [hc, hq] at h; cases h
    | some v =>
      rw [hc, hq] at h
      simp only [Bool.and_eq_true, decide_eq_true_eq] at h
      cases v with
      | fin q => exact ⟨c, rfl, h.1.2, q, rfl⟩
      | nan => cases h.2
      | inf => cases h.2
      | ninf => cases h.2

theorem lollipopInit_conditions (s : PTMSite) :
    (lollipopInit s).conditions =
      if hasQuantEvidence s then
        match s.condition with
        | some c => [c]
        | none => []
      else [] := rfl

theorem lollipopUpdate_conditions (e : LollipopSite) (s : PTMSite) :
    (lollipopUpdate e s).conditions =
      if hasQuantEvidence s then
        match s.condition with
        | some c => if c ∈ e.conditions then e.conditions else e.conditions ++ [c]
        | none => e.conditions
      else e.conditions := by
  by_cases h : hasQuantEvidence s = true
  · cases hc : s.condition <;> simp [lollipopUpdate, h, hc]
  · have h' : hasQuantEvidence s = false := Bool.eq_false_iff.mpr h
    simp [lollipopUpdate, h']

theorem lolliCondOk_init (pool : List PTMSite) (s : PTMSite) (hs : s ∈ pool) :
    lolliCondOk pool (lollipopInit s) := by
  intro c hc
  rw [lollipopInit_conditions] at hc
  by_cases h : hasQuantEvidence s = true
  · rw [if_pos h] at hc
    rcases hasQuantEvidence_spec s h with ⟨c', hc', htrim, q, hq⟩
    rw [hc'] at hc
    rcases List.mem_singleton.mp hc with rfl
    exact ⟨htrim, s, hs, hc', q, hq⟩
  · rw [if_neg h] at hc
    rcases s.condition with _ | c'
    · cases hc
    · cases hc

theorem lolliCondOk_update (pool : List PTMSite) (e : LollipopSite) (s : PTMSite)
    (hs : s ∈ pool) (he : lolliCondOk pool e) : lolliCondOk pool (lollipopUpdate e s) := by
  intro c hc
  rw [lollipopUpdate_conditions] at hc
  by_cases h : hasQuantEvidence s = true
  · rw [if_pos h] at hc
    rcases hasQuantEvidence_spec s h with ⟨c', hc', htrim, q, hq⟩
    rw [hc'] at hc
    have hc2 : c ∈ (if c' ∈ e.conditions then e.conditions else e.conditions ++ [c']) := hc
    by_cases hmem : c' ∈ e.conditions
    · rw [if_pos hmem] at hc2
      exact he c hc2
    · rw [if_neg hmem] at hc2
      rcases List.mem_append.mp hc2 with hin | hnew
      · exact he c hin
      · rcases List.mem_singleton.mp hnew with rfl
        exact ⟨htrim, s, hs, hc', q, hq⟩
  · rw [if_neg h] at hc
    rcases s.condition with _ | c' <;> exact he c hc

theorem lollipopFold_invariant (pool : List PTMSite) :
    ∀ (cs : List PTMSite), (∀ s ∈ cs, s ∈ pool) →
      ∀ (acc : Option LollipopSite), (∀ a, acc = some a → lolliCondOk pool a) →
      ∀ e, cs.foldl (fun acc s => some (lollipopEntryUpd acc s)) acc = some e →
        lolliCondOk pool e := by
  intro cs
  induction cs with
  | nil => intro _ acc hacc e he; exact hacc e he
  | cons s rest ih =>
    intro hsub acc hacc e he
    rw [List.foldl_cons] at he
    refine ih (fun x hx => hsub x (List.mem_cons_of_mem _ hx)) (some (lollipopEntryUpd acc s)) ?_ e he
    intro a ha
    have hsp : s ∈ pool := hsub s (List.mem_cons_self _ _)
    cases acc with
    | none =>
      have : lollipopEntryUpd none s = lollipopInit s := rfl
      rw [this] at ha
      exact (Option.some.injEq _ _).mp ha ▸ lolliCondOk_init pool s hsp
    | some b =>
      have : lollipopEntryUpd (some b) s = lollipopUpdate b s := rfl
      rw [this] at ha
      exact (Option.some.injEq _ _).mp ha ▸ lolliCondOk_update pool b s hsp (hacc b rfl)

/-- **C7 (amended).** In the lollipop plot's consolidation, a condition
label enters an entry's condition tally only when it is non-empty after
trimming and the contributing observation's quantity is present and
finite (`isFinite` guard); whereas in the sites-table consolidation the
per-condition `quantitySum`/`quantityCount` are updated whenever a
quantity is merely present, finite or not (see the counterexample). -/
theorem C7_condition_tally_requires_finite_quantity (sites : List PTMSite)
    (kv : String × LollipopSite) (h : kv ∈ lollipopConsolidatedSites sites) :
    ∀ c ∈ kv.2.conditions, jsTrim c ≠ "" ∧
      ∃ s ∈ sites, s.condition = some c ∧ ∃ q, s.quantity = some (JSNum.fin q) := by
  have hget := lollipopConsolidatedSites_mem_get sites kv h
  rw [lollipopConsolidatedSites_get] at hget
  refine lollipopFold_invariant sites (contributors sites kv.1) ?_ none
    (by intro a ha; cases ha) kv.2 hget
  intro s hs
  exact List.mem_of_mem_filter hs

/-- Witness for the amended C7: one observation with a trimmed non-empty
condition and finite quantity, one with a whitespace-only condition. -/
theorem C7_condition_tally_witness :
    (lollipopConsolidatedSites
      [{ siteLocation := 4, modificationType := "P", type := .experimental,
         condition := some "ctrl", quantity := some (JSNum.fin 3) },
       { siteLocation := 4, modificationType := "P", type := .experimental,
         condition := some " ", quantity := some (JSNum.fin 2) }] ≠ []) ∧
    ∀ kv ∈ lollipopConsolidatedSites
        [{ siteLocation := 4, modificationType := "P", type := .experimental,
           condition := some "ctrl", quantity := some (JSNum.fin 3) },
         { siteLocation := 4, modificationType := "P", type := .experimental,
           condition := some " ", quantity := some (JSNum.fin 2) }],
      ∀ c ∈ kv.2.conditions, jsTrim c ≠ "" ∧
        ∃ s ∈ ([{ siteLocation := 4, modificationType := "P", type := .experimental,
                  condition := some "ctrl", quantity := some (JSNum.fin 3) },
                { siteLocation := 4, modificationType := "P", type := .experimental,
                  condition := some " ", quantity := some (JSNum.fin 2) }] : List PTMSite),
          s.condition = some c ∧ ∃ q, s.quantity = some (JSNum.fin q) :=
  ⟨by decide, fun kv h => C7_condition_tally_requires_finite_quantity _ kv h⟩

/-! ### C6 and C9: the upload pipeline -/

theorem processRow_processedSites (st : UploadState) (i : Nat) (r : RawRow) :
    (processRow st i r).processedSites =
      st.processedSites + (if rowAccepted r then 1 else 0) := by
  by_cases hid : jsTrim r.proteinId = ""
  · simp [processRow, rowAccepted, hid]
  · cases hb : buildPtmSite (jsTrim r.proteinId) r with
    | some rec =>
      by_cases hsp : jsTrim r.proteinId ∈ st.storedProteins <;>
        simp [processRow, rowAccepted, hid, hb, hsp]
    | none => simp [processRow, rowAccepted, hid, hb]

theorem processRow_storedSites (st : UploadState) (i : Nat) (r : RawRow) :
    (processRow st i r).storedSites.length =
      st.storedSites.length + (if rowAccepted r then 1 else 0) := by
  by_cases hid : jsTrim r.proteinId = ""
  · simp [processRow, rowAccepted, hid]
  · cases hb : buildPtmSite (jsTrim r.proteinId) r with
    | some rec =>
      by_cases hsp : jsTrim r.proteinId ∈ st.storedProteins <;>
        simp [processRow, rowAccepted, hid, hb, hsp]
    | none => simp [processRow, rowAccepted, hid, hb]

theorem processRow_errors (st : UploadState) (i : Nat) (r : RawRow) :
    (processRow st i r).validationErrors.map Prod.fst =
      st.validationErrors.map Prod.fst ++ (if rowAccepted r then [] else [i + 1]) := by
  by_cases hid : jsTrim r.proteinId = ""
  · simp [processRow, rowAccepted, hid]
  · cases hb : buildPtmSite (jsTrim r.proteinId) r with
    | some rec =>
      by_cases hsp : jsTrim r.proteinId ∈ st.storedProteins <;>
        simp [processRow, rowAccepted, hid, hb, hsp]
    | none => simp [processRow, rowAccepted, hid, hb]

theorem processRow_proteinIds (st : UploadState) (i : Nat) (r : RawRow) :
    (processRow st i r).proteinIds =
      if jsTrim r.proteinId = "" then st.proteinIds
      else setAdd st.proteinIds (jsTrim r.proteinId) := by
  by_cases hid : jsTrim r.proteinId = ""
  · simp [processRow, hid]
  · cases hb : buildPtmSite (jsTrim r.proteinId) r with
    | some rec =>
      by_cases hsp : jsTrim r.proteinId ∈ st.storedProteins <;>
        simp [processRow, hid, hb, hsp]
    | none => simp [processRow, hid, hb]

theorem uploadLoop_spec :
    ∀ (rows : List RawRow) (i : Nat) (st : UploadState),
      ((List.enumFrom i rows).foldl (fun st p => processRow st p.1 p.2) st).processedSites =
        st.processedSites + (rows.filter rowAccepted).length
      ∧ ((List.enumFrom i rows).foldl (fun st p => processRow st p.1 p.2) st).storedSites.length =
        st.storedSites.length + (rows.filter rowAccepted).length
      ∧ ((List.enumFrom i rows).foldl (fun st p => processRow st p.1 p.2) st).validationErrors.map Prod.fst =
        st.validationErrors.map Prod.fst ++
          (((List.enumFrom i rows).filter (fun p => ! rowAccepted p.2)).map (fun p => p.1 + 1))
      ∧ ((List.enumFrom i rows).foldl (fun st p => processRow st p.1 p.2) st).proteinIds =
        (seenAccessions rows).foldl setAdd st.proteinIds := by
  intro rows
  induction rows with
  | nil => intro i st; refine ⟨rfl, rfl, by simp [List.enumFrom], rfl⟩
  | cons r rest ih =>
    intro i st
    have henum : List.enumFrom i (r :: rest) = (i, r) :: List.enumFrom (i + 1) rest := rfl
    rw [henum, List.foldl_cons]
    have hih := ih (i + 1) (processRow st i r)
    have hseen : seenAccessions (r :: rest) =
        (if jsTrim r.proteinId = "" then seenAccessions rest
         else jsTrim r.proteinId :: seenAccessions rest) := by
      rw [seenAccessions, List.filterMap_cons]
      by_cases hid : jsTrim r.proteinId = ""
      · rw [if_pos hid, if_pos hid]
        rfl
      · rw [if_neg hid, if_neg hid]
        rfl
    refine ⟨?_, ?_, ?_, ?_⟩
    · rw [hih.1, processRow_processedSites]
      rw [List.filter_cons]
      by_cases hacc : rowAccepted r = true <;> (simp [hacc]; try omega)
    · rw [hih.2.1, processRow_storedSites]
      rw [List.filter_cons]
      by_cases hacc : rowAccepted r = true <;> (simp [hacc]; try omega)
    · rw [hih.2.2.1, processRow_errors]
      rw [List.filter_cons]
      by_cases hacc : rowAccepted r = true <;> simp [hacc]
    · rw [hih.2.2.2, processRow_proteinIds, hseen]
      by_cases hid : jsTrim r.proteinId = ""
      · rw [if_pos hid, if_pos hid]
      · rw [if_neg hid, if_neg hid, List.foldl_cons]

/-- **C6.** An upload whose header lacks a required column short-circuits:
the session is `"failed"`, no PTM-site or protein records are created, and
the missing column names are reported.  With all required columns present,
malformed individual rows never abort the batch: the accepted rows are all
processed, each rejected row produces exactly one validation error citing
its 1-based row number, and the session ends `"completed"`. -/
theorem C6_structural_vs_row_errors :
    (∀ (headers : List String) (rows : List RawRow), missingRequired headers ≠ [] →
      (processUpload headers rows).status = "failed"
      ∧ (processUpload headers rows).storedSites = []
      ∧ (processUpload headers rows).storedProteins = []
      ∧ (processUpload headers rows).missingColumns = missingRequired headers)
    ∧ (∀ (headers : List String) (rows : List RawRow), missingRequired headers = [] →
      (processUpload headers rows).status = "completed"
      ∧ (processUpload headers rows).processedSites = (rows.filter rowAccepted).length
      ∧ (processUpload headers rows).validationErrors.map Prod.fst =
          ((rows.enum.filter (fun p => ! rowAccepted p.2)).map (fun p => p.1 + 1))) := by
  constructor
  · intro headers rows hmiss
    rw [processUpload, if_pos hmiss]
    exact ⟨rfl, rfl, rfl, rfl⟩
  · intro headers rows hmiss
    rw [processUpload, if_neg (by rw [hmiss]; exact fun h => h rfl)]
    have hspec := uploadLoop_spec rows 0 {}
    have henum : rows.enum = List.enumFrom 0 rows := rfl
    refine ⟨rfl, ?_, ?_⟩
    · rw [henum]
      simpa using hspec.1
    · rw [henum]
      simpa using hspec.2.2.1

/-- Witness for C6: Scenario B (one row of ten missing `SiteLocation` →
9 processed, one error citing row 4, session completed) and Scenario C
(missing `PTM.ModificationTitle` column → failed, nothing stored). -/
theorem C6_structural_vs_row_errors_witness :
    (missingRequired ["PTM.ProteinId", "PTM.SiteLocation", "PTM.SiteAA"] ≠ [] ∧
      (processUpload ["PTM.ProteinId", "PTM.SiteLocation", "PTM.SiteAA"] scenarioRows).status = "failed"
      ∧ (processUpload ["PTM.ProteinId", "PTM.SiteLocation", "PTM.SiteAA"] scenarioRows).storedSites = []
      ∧ (processUpload ["PTM.ProteinId", "PTM.SiteLocation", "PTM.SiteAA"] scenarioRows).storedProteins = []
      ∧ (processUpload ["PTM.ProteinId", "PTM.SiteLocation", "PTM.SiteAA"] scenarioRows).missingColumns =
          missingRequired ["PTM.ProteinId", "PTM.SiteLocation", "PTM.SiteAA"]) ∧
    (missingRequired scenarioHeaders = [] ∧
      (processUpload scenarioHeaders scenarioRows).status = "completed"
      ∧ (processUpload scenarioHeaders scenarioRows).processedSites =
          (scenarioRows.filter rowAccepted).length
      ∧ (processUpload scenarioHeaders scenarioRows).validationErrors.map Prod.fst =
          ((scenarioRows.enum.filter (fun p => ! rowAccepted p.2)).map (fun p => p.1 + 1))) ∧
    (scenarioRows.filter rowAccepted).length = 9 ∧
    ((scenarioRows.enum.filter (fun p => ! rowAccepted p.2)).map (fun p => p.1 + 1)) = [4] :=
  ⟨⟨by decide, C6_structural_vs_row_errors.1 _ scenarioRows (by decide)⟩,
   ⟨by decide, C6_structural_vs_row_errors.2 scenarioHeaders scenarioRows (by decide)⟩,
   by decide, by decide⟩

theorem setAdd_nodup (l : List String) (x : String) (h : l.Nodup) : (setAdd l x).Nodup := by
  rw [setAdd]
  by_cases hx : x ∈ l
  · rwa [if_pos hx]
  · rw [if_neg hx]
    refine List.Nodup.append h (List.nodup_singleton _) ?_
    simpa [List.disjoint_singleton] using hx

theorem mem_setAdd (l : List String) (x y : String) :
    y ∈ setAdd l x ↔ y ∈ l ∨ y = x := by
  rw [setAdd]
  by_cases hx : x ∈ l
  · rw [if_pos hx]
    constructor
    · exact Or.inl
    · rintro (h | rfl)
      · exact h
      · exact hx
  · rw [if_neg hx]
    simp

theorem foldl_setAdd_nodup :
    ∀ (l : List String) (acc : List String), acc.Nodup → (l.foldl setAdd acc).Nodup := by
  intro l
  induction l with
  | nil => intro acc h; exact h
  | cons x xs ih => intro acc h; exact ih (setAdd acc x) (setAdd_nodup acc x h)

theorem mem_foldl_setAdd :
    ∀ (l : List String) (acc : List String) (y : String),
      y ∈ l.foldl setAdd acc ↔ y ∈ acc ∨ y ∈ l := by
  intro l
  induction l with
  | nil => intro acc y; simp
  | cons x xs ih =>
    intro acc y
    rw [List.foldl_cons, ih (setAdd acc x) y, mem_setAdd]
    constructor
    · rintro ((h | rfl) | h)
      · exact Or.inl h
      · exact Or.inr (List.mem_cons_self _ _)
      · exact Or.inr (List.mem_cons_of_mem _ h)
    · rintro (h | h)
      · exact Or.inl (Or.inl h)
      · rcases List.mem_cons.mp h with rfl | h'
        · exact Or.inl (Or.inr rfl)
        · exact Or.inr h'

theorem foldl_setAdd_length_eq_dedup (l : List String) :
    (l.foldl setAdd []).length = l.dedup.length := by
  have hnd : (l.foldl setAdd []).Nodup := foldl_setAdd_nodup l [] (by simp)
  have hset : (l.foldl setAdd []).toFinset = l.toFinset := by
    apply Finset.ext
    intro x
    rw [List.mem_toFinset, List.mem_toFinset, mem_foldl_setAdd]
    simp
  rw [← List.toFinset_card_of_nodup hnd, hset, List.card_toFinset]

/-- **C9.** After a structurally valid upload, `totalPtmSites` equals the
number of accepted (validated and stored) observations — the length of the
stored-record list, not the consolidated-site count — and `totalProteins`
equals the number of distinct accessions seen during the upload (every row
with a non-blank `PTM.ProteinId`, accepted or not). -/
theorem C9_session_totals (headers : List String) (rows : List RawRow)
    (h : missingRequired headers = []) :
    (processUpload headers rows).totalPtmSites =
      (processUpload headers rows).storedSites.length
    ∧ (processUpload headers rows).totalProteins = (seenAccessions rows).dedup.length := by
  rw [processUpload, if_neg (by rw [h]; exact fun hh => hh rfl)]
  have hspec := uploadLoop_spec rows 0 {}
  have henum : rows.enum = List.enumFrom 0 rows := rfl
  constructor
  · show (rows.enum.foldl (fun st p => processRow st p.1 p.2) {}).processedSites =
      (rows.enum.foldl (fun st p => processRow st p.1 p.2) {}).storedSites.length
    rw [henum]
    have h1 := hspec.1
    have h2 := hspec.2.1
    rw [h1, h2]
    rfl
  · show (rows.enum.foldl (fun st p => processRow st p.1 p.2) {}).proteinIds.length =
      (seenAccessions rows).dedup.length
    rw [henum, hspec.2.2.2]
    exact foldl_setAdd_length_eq_dedup (seenAccessions rows)

/-- Witness for C9 on Scenario B's rows: 9 stored observations, 10 distinct
accessions (the rejected row's accession still counts). -/
theorem C9_session_totals_witness :
    missingRequired scenarioHeaders = [] ∧
    ((processUpload scenarioHeaders scenarioRows).totalPtmSites =
        (processUpload scenarioHeaders scenarioRows).storedSites.length
      ∧ (processUpload scenarioHeaders scenarioRows).totalProteins =
        (seenAccessions scenarioRows).dedup.length) ∧
    (processUpload scenarioHeaders scenarioRows).totalPtmSites = 9 ∧
    (processUpload scenarioHeaders scenarioRows).totalProteins = 10 :=
  ⟨by decide, C9_session_totals scenarioHeaders scenarioRows (by decide), by decide, by decide⟩
